import Mathlib

/-!  Formal model of the PlannerBot machine-planning core (machine_planner.py).

Python dictionaries are modelled as insertion-ordered association lists,
matching Python dict semantics: lookup reads the first occurrence of a key,
update rewrites it in place, and inserting a fresh key appends at the end.
Quantities and capacities are integers (Python int).  Strings are Lean
strings; Python str.strip() is modelled by pstrip, str.lower() by ruLower
(ASCII plus the Cyrillic range, the alphabets this planner uses).  -/

/-- Value stored at the first occurrence of a key (Python dict access). -/
def lookupA {K V : Type} [DecidableEq K] : List (K × V) → K → Option V
  | [], _ => none
  | (k, v) :: rest, key => if k = key then some v else lookupA rest key

/-- Python dict.get with a default. -/
def getDA {K V : Type} [DecidableEq K] (l : List (K × V)) (key : K) (dflt : V) : V :=
  (lookupA l key).getD dflt

/-- Python `key in dict`. -/
def hasKeyA {K V : Type} [DecidableEq K] (l : List (K × V)) (key : K) : Bool :=
  (lookupA l key).isSome

/-- Python `d[key] = v`: rewrite the first occurrence in place, else append. -/
def setA {K V : Type} [DecidableEq K] : List (K × V) → K → V → List (K × V)
  | [], key, v => [(key, v)]
  | (k, w) :: rest, key, v =>
    if k = key then (k, v) :: rest else (k, w) :: setA rest key v

/-- Python `d[key] = d.get(key, 0) + v` for integer-valued dicts. -/
def bumpA {K : Type} [DecidableEq K] : List (K × Int) → K → Int → List (K × Int)
  | [], key, v => [(key, v)]
  | (k, w) :: rest, key, v =>
    if k = key then (k, w + v) :: rest else (k, w) :: bumpA rest key v

/-- Python `del d[key]` (removes the first occurrence of the key). -/
def eraseA {K V : Type} [DecidableEq K] : List (K × V) → K → List (K × V)
  | [], _ => []
  | (k, w) :: rest, key =>
    if k = key then rest else (k, w) :: eraseA rest key

/-- Python str.strip(): drop whitespace from both ends. -/
def pstrip (s : String) : String :=
  String.mk ((((s.toList.dropWhile Char.isWhitespace).reverse).dropWhile
    Char.isWhitespace).reverse)

/-- Lowercasing of one character covering ASCII and the Cyrillic letters used by
the planner (models Python str.lower on this alphabet). -/
def ruLowerChar (c : Char) : Char :=
  if 0x410 ≤ c.toNat ∧ c.toNat ≤ 0x42F then Char.ofNat (c.toNat + 0x20)
  else if c.toNat = 0x401 then Char.ofNat 0x451
  else c.toLower

/-- Python str.lower over the model alphabet. -/
def ruLower (s : String) : String :=
  String.mk (s.toList.map ruLowerChar)

/-- Python `needle in hay` substring test. -/
def strContains (hay needle : String) : Bool :=
  let h := hay.toList
  let n := needle.toList
  (List.range (h.length + 1)).any (fun i => n.isPrefixOf (List.drop i h))

/-- Maximum shift into the future in working days (machine_planner.MAX_SHIFT_DAYS). -/
def MAX_SHIFT_DAYS : Nat := 2

/-- One row of the Machines sheet after cell conversion: daily_capacity and
priority hold the results of the int() conversions (0 resp. 100 when the cell
is empty or unparseable, exactly as the try/except in load_machine_settings
produces), active holds the parse_bool result. -/
structure MachineRow where
  machine_id : String
  name : String
  category_allowed : String
  type_allowed : String
  daily_capacity : Int
  priority : Int
  active : Bool
deriving DecidableEq, Repr

/-- Machine from machine_planner.py.  categories and types model the
constructor-built sets (membership and emptiness are the only operations the
source performs on them). -/
structure Machine where
  id : String
  name : String
  categories : List String
  types : List String
  daily_capacity : Int
  priority : Int
  active : Bool
deriving DecidableEq, Repr

/-- Machine.can_produce: the category filter applies only when the filter set
and the stripped category are both nonempty, likewise the type filter. -/
def Machine.can_produce (m : Machine) (product_type category : String) : Bool :=
  let pt := pstrip product_type
  let cat := pstrip category
  if ¬ m.categories.isEmpty ∧ cat ≠ "" ∧ cat ∉ m.categories then false
  else if ¬ m.types.isEmpty ∧ pt ≠ "" ∧ pt ∉ m.types then false
  else true

/-- Python str.split(",") over the character list (on no comma the whole
string is the single group, so "" gives [""], as in Python). -/
def splitOnComma : List Char → List (List Char)
  | [] => [[]]
  | c :: rest =>
    match splitOnComma rest with
    | [] => [[]]
    | g :: gs => if c = ',' then [] :: g :: gs else (c :: g) :: gs

/-- parse_list from machine_planner.py on a string cell: split on commas,
strip each part, keep the nonempty ones. -/
def parse_list (value : String) : List String :=
  (((splitOnComma value.toList).map (fun cs => pstrip (String.mk cs)))).filter
    (fun p => p ≠ "")

/-- Models the Machines-sheet row loop of load_machine_settings: rows with a
blank Machine_ID are skipped, rows whose converted Daily_Capacity_cases is 0
(this includes empty or unparseable cells, which the int() conversion turns
into 0) are skipped, every other row is written into the machines dict.
Spreadsheet access, the column checks and the Routing sheet are external
collaborators outside this model. -/
def load_machine_settings (rows : List MachineRow) : List (String × Machine) :=
  rows.foldl (fun machines row =>
    let machine_id := pstrip row.machine_id
    if machine_id = "" then machines
    else
      let name := if pstrip row.name = "" then machine_id else pstrip row.name
      let categories := parse_list row.category_allowed
      let tys := parse_list row.type_allowed
      if row.daily_capacity = 0 then machines
      else setA machines machine_id
        ⟨machine_id, name, categories, tys, row.daily_capacity, row.priority, row.active⟩) []

/-- One active row of the Routing sheet after the Priority/Active conversions
performed in load_machine_settings. -/
structure RoutingRule where
  rtype : String
  rcat : String
  rrec : String
  preferred_machine_id : String
  priority : Int
  active : Bool
deriving DecidableEq, Repr

/-- Stable insertion (ascending Machine.priority): a later element stays in
front only when strictly smaller, so equal priorities keep input order,
matching Python list.sort stability. -/
def insertByMachinePriority (x : Machine) : List Machine → List Machine
  | [] => [x]
  | y :: ys =>
    if y.priority < x.priority then y :: insertByMachinePriority x ys
    else x :: y :: ys

/-- result.sort(key=lambda m: m.priority) from get_candidate_machines_for_product. -/
def sortByMachinePriority : List Machine → List Machine
  | [] => []
  | x :: xs => insertByMachinePriority x (sortByMachinePriority xs)

/-- Stable insertion, ascending RoutingRule.priority. -/
def insertByRulePriority (x : RoutingRule) : List RoutingRule → List RoutingRule
  | [] => [x]
  | y :: ys =>
    if y.priority < x.priority then y :: insertByRulePriority x ys
    else x :: y :: ys

/-- subset.sort_values(by="Priority", ascending=True), modelled as a stable
sort (deterministic ordering; rule order among equal priorities does not
affect any claim). -/
def sortByRulePriority : List RoutingRule → List RoutingRule
  | [] => []
  | x :: xs => insertByRulePriority x (sortByRulePriority xs)

/-- get_candidate_machines_for_product: Routing matches first (ascending rule
priority, first-seen id wins), then every active capable machine from the
machines dict, then a defensive re-check mapping ids to Machine objects, and a
final stable sort by Machine.priority. -/
def get_candidate_machines_for_product (machines : List (String × Machine))
    (routing : List RoutingRule) (product_type category recipe : String) :
    List Machine :=
  let pt := pstrip product_type
  let cat := pstrip category
  let rc := pstrip recipe
  let subset := routing.filter (fun r =>
    (pstrip r.rtype == pt) && (pstrip r.rcat == cat) && (pstrip r.rrec == rc) && r.active)
  let subset2 := sortByRulePriority subset
  let ids1 := subset2.foldl (fun acc r =>
    let mid := pstrip r.preferred_machine_id
    if mid ≠ "" ∧ mid ∉ acc then acc ++ [mid] else acc) ([] : List String)
  let ids2 := machines.foldl (fun acc kv =>
    if kv.2.active = true ∧ kv.2.can_produce pt cat = true ∧ kv.1 ∉ acc
    then acc ++ [kv.1] else acc) ids1
  let result := ids2.filterMap (fun mid =>
    match lookupA machines mid with
    | some mach =>
      if mach.active = true ∧ mach.can_produce pt cat = true then some mach else none
    | none => none)
  sortByMachinePriority result

/-- One line of a batch (an entry of batch["lines"]): original row index,
brand ("" models a missing brand), required quantity ПЛАН and the mutable
remaining quantity. -/
structure Line where
  idx : Nat
  brand : String
  plan : Int
  remaining : Int
deriving DecidableEq, Repr

/-- A batch grouped by (Тип, Категория, Рецептура): btype, bcat, brec model
those fields, priority the running maximum of member line priorities. -/
structure Batch where
  btype : String
  bcat : String
  brec : String
  priority : Int
  lines : List Line
deriving DecidableEq, Repr

/-- One row of the enriched plan as consumed by build_batches: the DataFrame
index, Бренд, Тип, Категория, Рецептура, the integer ПЛАН and the computed
priority. -/
structure PlanRow where
  idx : Nat
  brand : String
  ptype : String
  pcat : String
  prec : String
  plan : Int
  priority : Int
deriving DecidableEq, Repr

/-- A fresh batch as created on first sight of a key in build_batches. -/
def fresh_batch (pt cat rc : String) : Batch := ⟨pt, cat, rc, 0, []⟩

/-- Row loop of build_batches; fails (Python: raises ValueError) on an empty
stripped Рецептура. -/
def build_batches_loop : List PlanRow → List (String × Batch) →
    Option (List (String × Batch))
  | [], acc => some acc
  | row :: rest, acc =>
    let pt := pstrip row.ptype
    let cat := pstrip row.pcat
    let rc := pstrip row.prec
    if rc = "" then none
    else
      let key := pt ++ "||" ++ cat ++ "||" ++ rc
      let cur := getDA acc key (fresh_batch pt cat rc)
      let prio2 := if cur.priority < row.priority then row.priority else cur.priority
      let line : Line := ⟨row.idx, row.brand, row.plan, row.plan⟩
      build_batches_loop rest
        (setA acc key { cur with priority := prio2, lines := cur.lines ++ [line] })

/-- build_batches from machine_planner.py: group plan rows into batches keyed
by the string pt||cat||rc. -/
def build_batches (plan : List PlanRow) : Option (List (String × Batch)) :=
  build_batches_loop plan []

/-- line_assignments: dict[row index][day index] = quantity. -/
abbrev LineAssignments := List (Nat × List (Nat × Int))

/-- machine_schedule: dict[(day index, machine id)][(batch key, brand)] = quantity. -/
abbrev MachineSchedule := List ((Nat × String) × List ((String × String) × Int))

/-- Result of allocate_to_lines: the updated lines of the batch, the quantity
that could not be placed (returned as not_allocated), the per-brand allocation
of this call, and the updated line_assignments. -/
structure AllocResult where
  lines : List Line
  need : Int
  brand_alloc : List (String × Int)
  la : LineAssignments
deriving Repr

/-- allocate_to_lines from machine_planner.py: walk the batch lines in order,
take min(line remaining, still needed) from each positive line, record the
taken amount in line_assignments and per brand ("_NO_BRAND_" for blank
brands), stop once nothing is needed. -/
def allocate_to_lines : List Line → Int → Nat → LineAssignments →
    List (String × Int) → AllocResult
  | [], need, _, la, ba => ⟨[], need, ba, la⟩
  | l :: rest, need, day, la, ba =>
    if need ≤ 0 then ⟨l :: rest, need, ba, la⟩
    else if l.remaining ≤ 0 then
      let r := allocate_to_lines rest need day la ba
      ⟨l :: r.lines, r.need, r.brand_alloc, r.la⟩
    else
      let take := min l.remaining need
      if take ≤ 0 then
        let r := allocate_to_lines rest need day la ba
        ⟨l :: r.lines, r.need, r.brand_alloc, r.la⟩
      else
        let l2 := { l with remaining := l.remaining - take }
        let la2 := setA la l.idx (bumpA (getDA la l.idx []) day take)
        let bkey := if l.brand = "" then "_NO_BRAND_" else l.brand
        let ba2 := bumpA ba bkey take
        let r := allocate_to_lines rest (need - take) day la2 ba2
        ⟨l2 :: r.lines, r.need, r.brand_alloc, r.la⟩

/-- Mutable state of distribute_batches: line_assignments, machine_schedule,
batch_remaining, machine_free and the (in-place mutated) batches dict. -/
structure DState where
  la : LineAssignments
  sched : MachineSchedule
  brem : List (String × Int)
  mfree : List ((Nat × String) × Int)
  batches : List (String × Batch)
deriving Repr

/-- Sum of line["remaining"] over the lines of a batch. -/
def sumRemaining : List Line → Int
  | [] => 0
  | l :: rest => l.remaining + sumRemaining rest

/-- Sum of the required quantities ПЛАН over the lines of a batch. -/
def sumPlan : List Line → Int
  | [] => 0
  | l :: rest => l.plan + sumPlan rest

/-- Initial machine_free map: every active machine gets its daily capacity on
each of the MAX_SHIFT_DAYS + 1 days. -/
def initFree (machines : List (String × Machine)) : List ((Nat × String) × Int) :=
  (List.range (MAX_SHIFT_DAYS + 1)).foldl (fun acc day =>
    machines.foldl (fun acc kv =>
      if kv.2.active = true then setA acc (day, kv.1) kv.2.daily_capacity else acc)
      acc) []

/-- Stable insertion for the descending batch-priority sort: a later pair
stays in front only when strictly larger, so sorted(..., reverse=True)
stability is preserved. -/
def insertByBatchPriorityDesc (x : String × Batch) :
    List (String × Batch) → List (String × Batch)
  | [] => [x]
  | y :: ys =>
    if x.2.priority < y.2.priority then y :: insertByBatchPriorityDesc x ys
    else x :: y :: ys

/-- sorted(batches.items(), key=priority, reverse=True). -/
def sortByBatchPriorityDesc : List (String × Batch) → List (String × Batch)
  | [] => []
  | x :: xs => insertByBatchPriorityDesc x (sortByBatchPriorityDesc xs)

/-- Inner candidate loop of distribute_batches for one (day, batch): try each
candidate machine in order, take min(free, remaining), push it into the batch
lines, and record the real take in batch_remaining, machine_free and the
machine_schedule ledger; stop when the batch is exhausted. -/
def allocOnMachines (day : Nat) (batch_key : String) :
    List Machine → DState → DState
  | [], st => st
  | mach :: rest, st =>
    let remaining := getDA st.brem batch_key 0
    let free := getDA st.mfree (day, mach.id) 0
    if free ≤ 0 ∨ remaining ≤ 0 then allocOnMachines day batch_key rest st
    else
      match lookupA st.batches batch_key with
      | none => allocOnMachines day batch_key rest st
      | some batch =>
        let take := min free remaining
        let r := allocate_to_lines batch.lines take day st.la []
        let st2 : DState :=
          { st with batches := setA st.batches batch_key { batch with lines := r.lines },
                    la := r.la }
        let real_take := take - r.need
        if real_take ≤ 0 then allocOnMachines day batch_key rest st2
        else
          let remaining2 := remaining - real_take
          let inner := getDA st2.sched (day, mach.id) []
          let inner2 := r.brand_alloc.foldl (fun acc kv =>
            if kv.2 ≤ 0 then acc else bumpA acc (batch_key, kv.1) kv.2) inner
          let st3 : DState :=
            { st2 with brem := setA st2.brem batch_key remaining2,
                       mfree := setA st2.mfree (day, mach.id) (free - real_take),
                       sched := setA st2.sched (day, mach.id) inner2 }
          if remaining2 ≤ 0 then st3 else allocOnMachines day batch_key rest st3

/-- One (day, batch) step of distribute_batches: skip exhausted batches,
resolve candidates, run the candidate loop (an empty candidate list leaves the
state unchanged, the remainder persists). -/
def distStepBatch (machines : List (String × Machine)) (routing : List RoutingRule)
    (day : Nat) (st : DState) (batch_key : String) : DState :=
  if getDA st.brem batch_key 0 ≤ 0 then st
  else
    match lookupA st.batches batch_key with
    | none => st
    | some batch =>
      allocOnMachines day batch_key
        (get_candidate_machines_for_product machines routing batch.btype batch.bcat batch.brec)
        st

/-- distribute_batches from machine_planner.py.  Days iterate outermost
(0 = today, then +1, +2), batches in descending aggregate priority (stable).
Returns line_assignments, machine_schedule, batch_remaining and the batches
dict whose lines were mutated in place (the Python function returns the first
three and mutates batches; working_days is an unused parameter there). -/
def distribute_batches (batches : List (String × Batch))
    (machines : List (String × Machine)) (routing : List RoutingRule) :
    LineAssignments × MachineSchedule × List (String × Int) × List (String × Batch) :=
  let brem0 := batches.map (fun kv => (kv.1, sumRemaining kv.2.lines))
  let keysSorted := (sortByBatchPriorityDesc batches).map (fun kv => kv.1)
  let st0 : DState := ⟨[], [], brem0, initFree machines, batches⟩
  let stF := (List.range (MAX_SHIFT_DAYS + 1)).foldl (fun st day =>
    keysSorted.foldl (distStepBatch machines routing day) st) st0
  (stF.la, stF.sched, stF.brem, stF.batches)

/-- Balancing filter of balance_soy_pp_between_two_machines: the entry's batch
exists, its Тип is exactly "ПП" and its lowercased Категория contains "соев". -/
def soyFilter (batches : List (String × Batch)) (batch_key : String) : Bool :=
  match lookupA batches batch_key with
  | none => false
  | some b => (b.btype == "ПП") && strContains (ruLower b.bcat) "соев"

/-- Per-day load computation of the balancer: sum positive filtered ledger
quantities of the two machines on the given day. -/
def dayLoads (sched : MachineSchedule) (batches : List (String × Batch))
    (day : Nat) (m1_id m2_id : String) : Int × Int :=
  sched.foldl (fun loads cell =>
    if cell.1.1 = day ∧ (cell.1.2 = m1_id ∨ cell.1.2 = m2_id) then
      cell.2.foldl (fun loads entry =>
        if entry.2 ≤ 0 then loads
        else if soyFilter batches entry.1.1 = true then
          if cell.1.2 = m1_id then (loads.1 + entry.2, loads.2)
          else if cell.1.2 = m2_id then (loads.1, loads.2 + entry.2)
          else loads
        else loads) loads
    else loads) (0, 0)

/-- Move loop of the balancer over a snapshot of the donor ledger: an entry is
moved only whole and only when its full quantity fits the remaining budget;
the donor entry is deleted and the receiver entry accumulated. -/
def moveEntries (batches : List (String × Batch)) (donor_key receiver_key : Nat × String) :
    List ((String × String) × Int) → Int → MachineSchedule → MachineSchedule
  | [], _, sched => sched
  | entry :: rest, budget, sched =>
    if budget ≤ 0 then sched
    else if entry.2 ≤ 0 then moveEntries batches donor_key receiver_key rest budget sched
    else if soyFilter batches entry.1.1 = false then
      moveEntries batches donor_key receiver_key rest budget sched
    else if budget < entry.2 then moveEntries batches donor_key receiver_key rest budget sched
    else
      let donor := getDA sched donor_key []
      let sched2 := setA sched donor_key (eraseA donor entry.1)
      let recv := getDA sched2 receiver_key []
      let sched3 := setA sched2 receiver_key (bumpA recv entry.1 entry.2)
      moveEntries batches donor_key receiver_key rest (budget - entry.2) sched3

/-- One day of the balancer: compute filtered loads, apply the skip guards,
pick donor and receiver, compute the move budget and run the move loop. -/
def balanceDay (sched : MachineSchedule) (batches : List (String × Batch))
    (m1_id m2_id : String) (mach1 mach2 : Machine) (day : Nat) : MachineSchedule :=
  let loads := dayLoads sched batches day m1_id m2_id
  let load1 := loads.1
  let load2 := loads.2
  if load1 = 0 ∧ load2 = 0 then sched
  else
    let free1 := mach1.daily_capacity - load1
    let free2 := mach2.daily_capacity - load2
    if (free1 ≤ 0 ∧ free2 ≤ 0) ∨ |load1 - load2| ≤ 1 then sched
    else
      let donor_id := if load2 < load1 then m1_id else m2_id
      let receiver_id := if load2 < load1 then m2_id else m1_id
      let donor_load := if load2 < load1 then load1 else load2
      let receiver_load := if load2 < load1 then load2 else load1
      let receiver_cap := if load2 < load1 then mach2.daily_capacity else mach1.daily_capacity
      let free_receiver := receiver_cap - receiver_load
      if free_receiver ≤ 0 then sched
      else
        let desired_move := min free_receiver (max 0 (Int.fdiv (donor_load - receiver_load) 2))
        if desired_move ≤ 0 then sched
        else
          let donor_key := (day, donor_id)
          let receiver_key := (day, receiver_id)
          if hasKeyA sched donor_key = false then sched
          else
            let sched1 :=
              if hasKeyA sched receiver_key = true then sched
              else setA sched receiver_key []
            moveEntries batches donor_key receiver_key
              (getDA sched1 donor_key []) desired_move sched1

/-- balance_soy_pp_between_two_machines from machine_planner.py: a no-op when
either twin is missing from the machines dict or their priorities differ,
otherwise one balanceDay pass per horizon day. -/
def balance_soy_pp_between_two_machines (sched : MachineSchedule)
    (machines : List (String × Machine)) (batches : List (String × Batch))
    (m1_id m2_id : String) : MachineSchedule :=
  match lookupA machines m1_id, lookupA machines m2_id with
  | some mach1, some mach2 =>
    if mach1.priority ≠ mach2.priority then sched
    else
      (List.range (MAX_SHIFT_DAYS + 1)).foldl
        (fun s day => balanceDay s batches m1_id m2_id mach1 mach2 day) sched
  | _, _ => sched

/-- Sum of all quantities in one (day, machine) ledger cell. -/
def innerTotal : List ((String × String) × Int) → Int
  | [] => 0
  | kv :: rest => kv.2 + innerTotal rest

/-- Quantity recorded in one ledger cell for one batch key, summed over brands. -/
def innerBatchTotal (k : String) : List ((String × String) × Int) → Int
  | [] => 0
  | kv :: rest => (if kv.1.1 = k then kv.2 else 0) + innerBatchTotal k rest

/-- Total ledger quantity recorded for a batch key over the whole schedule. -/
def schedBatchTotal (k : String) : MachineSchedule → Int
  | [] => 0
  | cell :: rest => innerBatchTotal k cell.2 + schedBatchTotal k rest

/-- Ledger quantity of one (batch key, brand) unit on one machine and day. -/
def getQ (sched : MachineSchedule) (day : Nat) (mid : String) (k : String × String) : Int :=
  getDA (getDA sched (day, mid) []) k 0

/-- Sum of a brand_alloc dict. -/
def allocSum : List (String × Int) → Int
  | [] => 0
  | kv :: rest => kv.2 + allocSum rest

/-- Sum of the positive entries of a brand_alloc dict (the ones the ledger
update of distribute_batches records). -/
def allocSumPos : List (String × Int) → Int
  | [] => 0
  | kv :: rest => (if kv.2 ≤ 0 then 0 else kv.2) + allocSumPos rest

/-- The capability predicate exactly as the specification words it: the
allowed-category set is empty or contains the category, and the allowed-type
set is empty or contains the type.  Written from the spec for comparison with
Machine.can_produce. -/
def can_produce_spec (m : Machine) (product_type category : String) : Prop :=
  (m.categories = [] ∨ category ∈ m.categories) ∧
    (m.types = [] ∨ product_type ∈ m.types)

/-- Steps 3 to 5 of machine_planner.main on already-loaded inputs: build the
batches, distribute them, then run the balancing pass on the resulting
schedule with the mutated batches dict (exactly what main passes on). -/
def plan_pipeline (plan : List PlanRow) (machines : List (String × Machine))
    (routing : List RoutingRule) (m1_id m2_id : String) :
    Option (LineAssignments × MachineSchedule × List (String × Int)) :=
  match build_batches plan with
  | none => none
  | some batches =>
    let r := distribute_batches batches machines routing
    some (r.1, balance_soy_pp_between_two_machines r.2.1 machines r.2.2.2 m1_id m2_id, r.2.2.1)

/-- Quantity a batch key received on one machine and day, summed over brands. -/
def batchDayTotal (sched : MachineSchedule) (day : Nat) (mid : String) (k : String) : Int :=
  innerBatchTotal k (getDA sched (day, mid) [])

/-- Conservation invariant of distribute_batches relative to the initial
batch_remaining map: per-batch remaining plus ledgered quantity is constant. -/
def ConsInv (brem0 : List (String × Int)) (st : DState) : Prop :=
  ∀ k : String, getDA st.brem k 0 + schedBatchTotal k st.sched = getDA brem0 k 0

/-- Every ledger cell of a schedule has pairwise-distinct (batch key, brand)
keys (Python dict keys are unique). -/
def NodupInner (sched : MachineSchedule) : Prop :=
  ∀ cell ∈ sched, (cell.2.map Prod.fst).Nodup

/-- Twin machines of the C1 scenario: equal priority, capacity 50 each. -/
def c1machines : List (String × Machine) :=
  [("soy_pp_1", ⟨"soy_pp_1", "S1", [], [], 50, 1, true⟩),
   ("soy_pp_2", ⟨"soy_pp_2", "S2", [], [], 50, 1, true⟩)]

/-- Batches of the C1 scenario: a filtered soy-ПП batch of 40 (two brands of
20) with high priority, and a non-filtered batch of 60. -/
def c1batches : List (String × Batch) :=
  [("ПП||соевый||r", ⟨"ПП", "соевый", "r", 100, [⟨0, "b1", 20, 20⟩, ⟨1, "b2", 20, 20⟩]⟩),
   ("Другое||прочее||r2", ⟨"Другое", "прочее", "r2", 50, [⟨2, "a", 60, 60⟩]⟩)]

/-- Result of distribute_batches on the C1 scenario. -/
def c1dist := distribute_batches c1batches c1machines []

/-- Final C1 schedule after the balancing pass, exactly as main produces it. -/
def c1final : MachineSchedule :=
  balance_soy_pp_between_two_machines c1dist.2.1 c1machines c1dist.2.2.2 "soy_pp_1" "soy_pp_2"

/-- Twin machines of the C4 scenario: equal priority, capacity 40 each. -/
def c4machines : List (String × Machine) :=
  [("soy_pp_1", ⟨"soy_pp_1", "S1", [], [], 40, 1, true⟩),
   ("soy_pp_2", ⟨"soy_pp_2", "S2", [], [], 40, 1, true⟩)]

/-- Single soy-ПП batch of 60 with a single brand, C4 scenario. -/
def c4batches : List (String × Batch) :=
  [("ПП||соевый||r", ⟨"ПП", "соевый", "r", 0, [⟨0, "b", 60, 60⟩]⟩)]

/-- Result of distribute_batches on the C4 scenario. -/
def c4dist := distribute_batches c4batches c4machines []

/-- Final C4 schedule after the balancing pass. -/
def c4final : MachineSchedule :=
  balance_soy_pp_between_two_machines c4dist.2.1 c4machines c4dist.2.2.2 "soy_pp_1" "soy_pp_2"

/-- The (batch key, brand) unit of the C4 scenario. -/
def c4key : String × String := ("ПП||соевый||r", "b")

/-- Single machine of the C7 scenario: capacity 50. -/
def c7machines : List (String × Machine) := [("m1", ⟨"m1", "M1", [], [], 50, 1, true⟩)]

/-- Single batch of the C7 scenario: one line requiring 120. -/
def c7batches : List (String × Batch) := [("t||c||r", ⟨"t", "c", "r", 0, [⟨0, "b", 120, 120⟩]⟩)]

/-- Result of distribute_batches on the C7 scenario. -/
def c7dist := distribute_batches c7batches c7machines []

theorem lookupA_setA_self {K V : Type} [DecidableEq K] (l : List (K × V)) (k : K) (v : V) :
    lookupA (setA l k v) k = some v := by
  induction l with
  | nil => simp [setA, lookupA]
  | cons kv rest ih =>
    obtain ⟨k1, w⟩ := kv
    by_cases h : k1 = k
    · subst h; simp [setA, lookupA]
    · simp [setA, h, lookupA, ih]

theorem lookupA_setA_ne {K V : Type} [DecidableEq K] (l : List (K × V)) (k k2 : K) (v : V)
    (h : k2 ≠ k) : lookupA (setA l k v) k2 = lookupA l k2 := by
  induction l with
  | nil => simp [setA, lookupA, Ne.symm h]
  | cons kv rest ih =>
    obtain ⟨k1, w⟩ := kv
    by_cases h1 : k1 = k
    · subst h1; simp [setA, lookupA, Ne.symm h]
    · simp [setA, h1, lookupA, ih]

theorem lookupA_bumpA_ne {K : Type} [DecidableEq K] (l : List (K × Int)) (k k2 : K) (v : Int)
    (h : k2 ≠ k) : lookupA (bumpA l k v) k2 = lookupA l k2 := by
  induction l with
  | nil => simp [bumpA, lookupA, Ne.symm h]
  | cons kv rest ih =>
    obtain ⟨k1, w⟩ := kv
    by_cases h1 : k1 = k
    · subst h1; simp [bumpA, lookupA, Ne.symm h]
    · simp [bumpA, h1, lookupA, ih]

theorem lookupA_eraseA_ne {K V : Type} [DecidableEq K] (l : List (K × V)) (k k2 : K)
    (h : k2 ≠ k) : lookupA (eraseA l k) k2 = lookupA l k2 := by
  induction l with
  | nil => simp [eraseA]
  | cons kv rest ih =>
    obtain ⟨k1, w⟩ := kv
    by_cases h1 : k1 = k
    · subst h1; simp [eraseA, lookupA, Ne.symm h]
    · simp [eraseA, h1, lookupA, ih]

theorem lookupA_eq_none_iff {K V : Type} [DecidableEq K] (l : List (K × V)) (k : K) :
    lookupA l k = none ↔ k ∉ l.map Prod.fst := by
  induction l with
  | nil => simp [lookupA]
  | cons kv rest ih =>
    obtain ⟨k1, w⟩ := kv
    by_cases h : k1 = k
    · subst h; simp [lookupA]
    · simp [lookupA, h, ih, Ne.symm h]

theorem lookupA_eraseA_self_of_nodup {K V : Type} [DecidableEq K] (l : List (K × V)) (k : K)
    (h : (l.map Prod.fst).Nodup) : lookupA (eraseA l k) k = none := by
  induction l with
  | nil => simp [eraseA, lookupA]
  | cons kv rest ih =>
    obtain ⟨k1, w⟩ := kv
    simp only [List.map_cons, List.nodup_cons] at h
    by_cases h1 : k1 = k
    · subst h1
      simp only [eraseA, if_pos rfl]
      exact (lookupA_eq_none_iff rest k1).2 h.1
    · simp [eraseA, h1, lookupA, ih h.2]

theorem lookupA_mem {K V : Type} [DecidableEq K] (l : List (K × V)) (k : K) (v : V)
    (h : lookupA l k = some v) : (k, v) ∈ l := by
  induction l with
  | nil => simp [lookupA] at h
  | cons kv rest ih =>
    obtain ⟨k1, w⟩ := kv
    by_cases h1 : k1 = k
    · subst h1
      simp [lookupA] at h
      subst h; exact List.mem_cons_self _ _
    · simp only [lookupA, if_neg h1] at h
      exact List.mem_cons_of_mem _ (ih h)

theorem mem_setA {K V : Type} [DecidableEq K] (l : List (K × V)) (k : K) (v : V)
    (kv : K × V) (h : kv ∈ setA l k v) : kv ∈ l ∨ kv = (k, v) := by
  induction l with
  | nil =>
    rw [show setA ([] : List (K × V)) k v = [(k, v)] from rfl] at h
    right; exact List.mem_singleton.1 h
  | cons kv1 rest ih =>
    obtain ⟨k1, w⟩ := kv1
    by_cases h1 : k1 = k
    · subst h1
      rw [show setA ((k1, w) :: rest) k1 v = (k1, v) :: rest from by simp [setA]] at h
      rcases List.mem_cons.1 h with h2 | h2
      · right; exact h2
      · left; exact List.mem_cons_of_mem _ h2
    · rw [show setA ((k1, w) :: rest) k v = (k1, w) :: setA rest k v from by simp [setA, h1]] at h
      rcases List.mem_cons.1 h with h2 | h2
      · left; exact h2 ▸ List.mem_cons_self _ _
      · rcases ih h2 with h3 | h3
        · left; exact List.mem_cons_of_mem _ h3
        · right; exact h3

theorem dropWhile_idem {α : Type} (p : α → Bool) (l : List α) :
    (l.dropWhile p).dropWhile p = l.dropWhile p := by
  induction l with
  | nil => simp
  | cons a l ih =>
    by_cases h : p a
    · simp [List.dropWhile_cons, h, ih]
    · simp [List.dropWhile_cons, h]

theorem dropWhile_suffix {α : Type} (p : α → Bool) (l : List α) :
    l.dropWhile p <:+ l := by
  induction l with
  | nil => simp
  | cons a l ih =>
    by_cases h : p a
    · simp only [List.dropWhile_cons, h, if_pos]
      exact ih.trans (List.suffix_cons a l)
    · simp [List.dropWhile_cons, h]

theorem head_dropWhile_false {α : Type} (p : α → Bool) (l : List α) (a : α)
    (h : (l.dropWhile p).head? = some a) : p a = false := by
  induction l with
  | nil => simp at h
  | cons b l ih =>
    by_cases hb : p b
    · simp only [List.dropWhile_cons, hb, if_pos] at h
      exact ih h
    · simp only [List.dropWhile_cons, hb, if_neg, Bool.not_eq_true, List.head?_cons,
        Option.some.injEq] at h
      subst h
      simpa using hb

theorem dropWhile_eq_self_of_head {α : Type} (p : α → Bool) (l : List α)
    (h : ∀ a, l.head? = some a → p a = false) : l.dropWhile p = l := by
  cases l with
  | nil => simp
  | cons a l => simp [List.dropWhile_cons, h a rfl]

theorem getLast_suffix_eq {α : Type} (s l : List α) (hs : s <:+ l) (hne : s ≠ []) :
    s.getLast? = l.getLast? := by
  obtain ⟨t, rfl⟩ := hs
  exact (List.getLast?_append_of_ne_nil t hne).symm

theorem pstrip_idem (s : String) : pstrip (pstrip s) = pstrip s := by
  have htl : ∀ l : List Char, (String.mk l).toList = l := fun l => rfl
  unfold pstrip
  rw [htl]
  congr 1
  set ws := Char.isWhitespace with hws
  set m := s.toList.dropWhile ws with hm
  set v := m.reverse.dropWhile ws with hv
  have hvdw : v.dropWhile ws = v := by rw [hv, dropWhile_idem]
  have hX : v.reverse.dropWhile ws = v.reverse := by
    apply dropWhile_eq_self_of_head
    intro c hc
    rw [List.head?_reverse] at hc
    have hvne : v ≠ [] := by
      intro hnil
      rw [hnil] at hc
      simp at hc
    have hsuf : v <:+ m.reverse := hv ▸ dropWhile_suffix ws m.reverse
    have hlast : v.getLast? = m.reverse.getLast? := getLast_suffix_eq v m.reverse hsuf hvne
    rw [List.getLast?_reverse] at hlast
    have hmh : m.head? = some c := hlast.symm.trans hc
    exact head_dropWhile_false ws s.toList c (hm ▸ hmh)
  rw [hX, List.reverse_reverse, hvdw]

theorem can_produce_pstrip (m : Machine) (pt cat : String) :
    m.can_produce (pstrip pt) (pstrip cat) = m.can_produce pt cat := by
  unfold Machine.can_produce
  rw [pstrip_idem, pstrip_idem]

/-- C3 counterexample: a machine restricted to category X can nevertheless
produce the empty (type, category) pair, because can_produce skips the
category check when the stripped category is empty; the specification formula
rejects it.  So the claimed equivalence fails. -/
theorem c3_counterexample :
    (Machine.mk "m" "m" ["X"] [] 10 1 true).can_produce "" "" = true ∧
      ¬ can_produce_spec (Machine.mk "m" "m" ["X"] [] 10 1 true) "" "" := by
  constructor
  · decide
  · intro h
    rcases h.1 with h1 | h1 <;> simp at h1

/-- C3 (amended): can_produce returns true exactly when each filter is empty,
or the corresponding stripped argument is empty, or the stripped argument is
in the filter — the empty string acts as a wildcard in addition to the
spec's two conditions. -/
theorem c3_can_produce_amended (m : Machine) (product_type category : String) :
    m.can_produce product_type category = true ↔
      ((m.categories = [] ∨ pstrip category = "" ∨ pstrip category ∈ m.categories) ∧
       (m.types = [] ∨ pstrip product_type = "" ∨ pstrip product_type ∈ m.types)) := by
  unfold Machine.can_produce
  by_cases hc : m.categories = [] <;> by_cases hcat : pstrip category = "" <;>
    by_cases hmem : pstrip category ∈ m.categories <;> by_cases ht : m.types = [] <;>
    by_cases hpt : pstrip product_type = "" <;> by_cases hmt : pstrip product_type ∈ m.types <;>
    simp [hc, hcat, hmem, ht, hpt, hmt, List.isEmpty_iff]

theorem foldlPreserve {α β : Type} (P : α → Prop) (f : α → β → α) :
    ∀ (l : List β) (init : α), P init → (∀ a b, P a → P (f a b)) → P (l.foldl f init) := by
  intro l
  induction l with
  | nil => intro init h _; exact h
  | cons b rest ih =>
    intro init h hstep
    exact ih (f init b) (hstep init b h) hstep

/-- C8 counterexample: a Machines row with converted capacity -1 is NOT
dropped by load_machine_settings (the source skips only capacity 0), so the
returned map contains a machine whose daily capacity is not positive. -/
theorem c8_counterexample :
    lookupA (load_machine_settings [⟨"m1", "M", "", "", -1, 1, true⟩]) "m1" =
      some ⟨"m1", "M", [], [], -1, 1, true⟩ ∧
    ¬ (0 : Int) < -1 := by
  exact ⟨by decide, by decide⟩

/-- C8 (amended): load_machine_settings silently drops exactly the rows whose
converted daily capacity is 0 (which includes empty and unparseable capacity
cells); negative capacities are kept, so every machine in the returned map has
daily_capacity ≠ 0 (not necessarily > 0). -/
theorem c8_load_amended (rows : List MachineRow) (kv : String × Machine)
    (h : kv ∈ load_machine_settings rows) : kv.2.daily_capacity ≠ 0 := by
  unfold load_machine_settings at h
  refine (foldlPreserve (fun acc => ∀ kv2 ∈ acc, kv2.2.daily_capacity ≠ 0) _ rows [] ?_ ?_) kv h
  · intro kv2 h2; simp at h2
  · intro acc row hacc kv2 h2
    by_cases hid : pstrip row.machine_id = ""
    · rw [if_pos hid] at h2
      exact hacc kv2 h2
    · rw [if_neg hid] at h2
      by_cases hdc : row.daily_capacity = 0
      · simp only [hdc, if_pos rfl] at h2
        exact hacc kv2 h2
      · simp only [if_neg hdc] at h2
        rcases mem_setA _ _ _ _ h2 with h3 | h3
        · exact hacc kv2 h3
        · rw [h3]; exact hdc

/-- C8 witness: a loaded row with capacity 7 yields a machine whose capacity
is nonzero. -/
theorem c8_load_witness :
    (("m1", (⟨"m1", "M", [], [], 7, 1, true⟩ : Machine)) ∈
      load_machine_settings [⟨"m1", "M", "", "", 7, 1, true⟩]) ∧
    (("m1", (⟨"m1", "M", [], [], 7, 1, true⟩ : Machine)) : String × Machine).2.daily_capacity ≠ 0 :=
  ⟨by decide, c8_load_amended [⟨"m1", "M", "", "", 7, 1, true⟩] _ (by decide)⟩

/-- C5 (confirmed): when both twin machines are configured and their
priorities differ, the balancing pass returns the schedule unchanged,
whatever the schedule and loads are. -/
theorem c5_priority_guard (sched : MachineSchedule) (machines : List (String × Machine))
    (batches : List (String × Batch)) (m1_id m2_id : String) (mach1 mach2 : Machine)
    (h1 : lookupA machines m1_id = some mach1) (h2 : lookupA machines m2_id = some mach2)
    (hp : mach1.priority ≠ mach2.priority) :
    balance_soy_pp_between_two_machines sched machines batches m1_id m2_id = sched := by
  unfold balance_soy_pp_between_two_machines
  rw [h1, h2]
  simp [hp]

/-- C5 witness: concrete twins with priorities 1 and 2 leave a nonempty
schedule untouched. -/
theorem c5_priority_guard_witness :
    lookupA [("soy_pp_1", (⟨"soy_pp_1", "S1", [], [], 50, 1, true⟩ : Machine)),
             ("soy_pp_2", (⟨"soy_pp_2", "S2", [], [], 50, 2, true⟩ : Machine))] "soy_pp_1" =
      some (⟨"soy_pp_1", "S1", [], [], 50, 1, true⟩ : Machine) ∧
    lookupA [("soy_pp_1", (⟨"soy_pp_1", "S1", [], [], 50, 1, true⟩ : Machine)),
             ("soy_pp_2", (⟨"soy_pp_2", "S2", [], [], 50, 2, true⟩ : Machine))] "soy_pp_2" =
      some (⟨"soy_pp_2", "S2", [], [], 50, 2, true⟩ : Machine) ∧
    (⟨"soy_pp_1", "S1", [], [], 50, 1, true⟩ : Machine).priority ≠
      (⟨"soy_pp_2", "S2", [], [], 50, 2, true⟩ : Machine).priority ∧
    balance_soy_pp_between_two_machines [((0, "soy_pp_1"), [(("ПП||соевый||r", "b"), 40)])]
      [("soy_pp_1", ⟨"soy_pp_1", "S1", [], [], 50, 1, true⟩),
       ("soy_pp_2", ⟨"soy_pp_2", "S2", [], [], 50, 2, true⟩)]
      [("ПП||соевый||r", ⟨"ПП", "соевый", "r", 0, [⟨0, "b", 40, 0⟩]⟩)] "soy_pp_1" "soy_pp_2" =
      [((0, "soy_pp_1"), [(("ПП||соевый||r", "b"), 40)])] :=
  ⟨by decide, by decide, by decide,
    c5_priority_guard _ _ _ _ _
      ⟨"soy_pp_1", "S1", [], [], 50, 1, true⟩ ⟨"soy_pp_2", "S2", [], [], 50, 2, true⟩
      (by decide) (by decide) (by decide)⟩

/-- C7 (confirmed): one batch requiring 120 on a single eligible machine of
capacity 50 receives 50 on day 0, 50 on day 1 and 20 on day 2, and its final
remaining quantity is 0. -/
theorem c7_example_scenario :
    getQ c7dist.2.1 0 "m1" ("t||c||r", "b") = 50 ∧
    getQ c7dist.2.1 1 "m1" ("t||c||r", "b") = 50 ∧
    getQ c7dist.2.1 2 "m1" ("t||c||r", "b") = 20 ∧
    getDA c7dist.2.2.1 "t||c||r" 0 = 0 ∧
    getDA (getDA c7dist.1 0 []) 0 0 = 50 ∧
    getDA (getDA c7dist.1 0 []) 1 0 = 50 ∧
    getDA (getDA c7dist.1 0 []) 2 0 = 20 := by
  refine ⟨by decide, by decide, by decide, by decide, by decide, by decide, by decide⟩

/-- C9 (confirmed): the planning computation build_batches ∘ distribute_batches
∘ balance_soy_pp_between_two_machines is a pure function of its input
snapshot: equal inputs give equal line assignments and ledgers.  The source
iterates only over insertion-ordered dicts, lists and deterministic sorts, so
it has no iteration-order or time dependence. -/
theorem c9_determinism (p1 p2 : List PlanRow) (ms1 ms2 : List (String × Machine))
    (r1 r2 : List RoutingRule) (a1 a2 b1 b2 : String)
    (hp : p1 = p2) (hm : ms1 = ms2) (hr : r1 = r2) (ha : a1 = a2) (hb : b1 = b2) :
    plan_pipeline p1 ms1 r1 a1 b1 = plan_pipeline p2 ms2 r2 a2 b2 := by
  subst hp; subst hm; subst hr; subst ha; subst hb; rfl

/-- C9 witness: two runs on the same concrete snapshot coincide. -/
theorem c9_determinism_witness :
    plan_pipeline [⟨0, "b", "t", "c", "r", 5, 0⟩] c7machines [] "soy_pp_1" "soy_pp_2" =
      plan_pipeline [⟨0, "b", "t", "c", "r", 5, 0⟩] c7machines [] "soy_pp_1" "soy_pp_2" :=
  c9_determinism _ _ _ _ _ _ _ _ _ _ rfl rfl rfl rfl rfl

/-- C1 (code bug): on the C1 scenario the final schedule produced by
distribute_batches followed by balance_soy_pp_between_two_machines records a
total of 70 cases on (day 0, soy_pp_2) although that machine's daily capacity
is 50: the balancer computes the receiver's free capacity from the
soy-filtered load only, ignoring the 50 non-filtered cases already on it. -/
theorem c1_capacity_overrun_at_input :
    innerTotal (getDA c1final (0, "soy_pp_2") []) = 70 ∧
    lookupA c1machines "soy_pp_2" = some ⟨"soy_pp_2", "S2", [], [], 50, 1, true⟩ ∧
    ¬ innerTotal (getDA c1final (0, "soy_pp_2") []) ≤ 50 := by
  refine ⟨by decide, by decide, by decide⟩

/-- C4 counterexample: distribute_batches itself splits the single
(batch key, brand) unit of the C4 scenario across the two twins (40 on
soy_pp_1, 20 on soy_pp_2) and the balancer leaves it split, so after the
balancer runs the unit is NOT wholly on one of the two machines. -/
theorem c4_counterexample :
    soyFilter c4dist.2.2.2 c4key.1 = true ∧
    getQ c4final 0 "soy_pp_1" c4key = 40 ∧
    getQ c4final 0 "soy_pp_2" c4key = 20 ∧
    ¬ (getQ c4final 0 "soy_pp_1" c4key = 0 ∨ getQ c4final 0 "soy_pp_2" c4key = 0) := by
  refine ⟨by decide, by decide, by decide, by decide⟩

theorem mem_insertByMachinePriority (a x : Machine) (l : List Machine) :
    x ∈ insertByMachinePriority a l ↔ x = a ∨ x ∈ l := by
  induction l with
  | nil => simp [insertByMachinePriority]
  | cons y ys ih =>
    by_cases h : y.priority < a.priority
    · simp only [insertByMachinePriority, if_pos h, List.mem_cons, ih]
      tauto
    · simp only [insertByMachinePriority, if_neg h, List.mem_cons]

theorem mem_sortByMachinePriority (x : Machine) (l : List Machine) :
    x ∈ sortByMachinePriority l ↔ x ∈ l := by
  induction l with
  | nil => simp [sortByMachinePriority]
  | cons y ys ih =>
    simp only [sortByMachinePriority, mem_insertByMachinePriority, ih, List.mem_cons]

/-- C10 (confirmed): every machine returned by
get_candidate_machines_for_product is a value of the machines map, is active
and can_produce the stripped (type, category); ids coming from routing rules
that are unknown, inactive or incapable are silently filtered out by the
defensive re-check. -/
theorem c10_candidates_sound (machines : List (String × Machine)) (routing : List RoutingRule)
    (product_type category recipe : String) (m : Machine)
    (h : m ∈ get_candidate_machines_for_product machines routing product_type category recipe) :
    (∃ mid, lookupA machines mid = some m) ∧ m.active = true ∧
      m.can_produce product_type category = true := by
  simp only [get_candidate_machines_for_product] at h
  rw [mem_sortByMachinePriority] at h
  rw [List.mem_filterMap] at h
  obtain ⟨mid, _, hf⟩ := h
  split at hf
  · rename_i mach heq
    split at hf
    · rename_i hcond
      obtain rfl : mach = m := by injection hf
      refine ⟨⟨mid, heq⟩, hcond.1, ?_⟩
      rw [← can_produce_pstrip]
      exact hcond.2
    · simp at hf
  · simp at hf

/-- C10 witness: the single machine of the C7 map is returned as candidate and
satisfies the three soundness conditions. -/
theorem c10_candidates_sound_witness :
    ((⟨"m1", "M1", [], [], 50, 1, true⟩ : Machine) ∈
      get_candidate_machines_for_product c7machines [] "t" "c" "r") ∧
    ((∃ mid, lookupA c7machines mid = some ⟨"m1", "M1", [], [], 50, 1, true⟩) ∧
      (⟨"m1", "M1", [], [], 50, 1, true⟩ : Machine).active = true ∧
      (⟨"m1", "M1", [], [], 50, 1, true⟩ : Machine).can_produce "t" "c" = true) :=
  ⟨by decide, c10_candidates_sound c7machines [] "t" "c" "r" _ (by decide)⟩

theorem allocSum_bumpA (ba : List (String × Int)) (k : String) (v : Int) :
    allocSum (bumpA ba k v) = allocSum ba + v := by
  induction ba with
  | nil => simp [bumpA, allocSum]
  | cons kv rest ih =>
    obtain ⟨k1, w⟩ := kv
    by_cases h : k1 = k
    · simp only [bumpA, if_pos h, allocSum]
      omega
    · simp only [bumpA, if_neg h, allocSum, ih]
      omega

theorem alloc_allocSum : ∀ (lines : List Line) (need : Int) (day : Nat)
    (la : LineAssignments) (ba : List (String × Int)),
    allocSum (allocate_to_lines lines need day la ba).brand_alloc =
      allocSum ba + (need - (allocate_to_lines lines need day la ba).need) := by
  intro lines
  induction lines with
  | nil => intro need day la ba; simp [allocate_to_lines]
  | cons l rest ih =>
    intro need day la ba
    by_cases h1 : need ≤ 0
    · simp only [allocate_to_lines, if_pos h1]
      omega
    · by_cases h2 : l.remaining ≤ 0
      · simp only [allocate_to_lines, if_neg h1, if_pos h2]
        exact ih need day la ba
      · by_cases h3 : min l.remaining need ≤ 0
        · simp only [allocate_to_lines, if_neg h1, if_neg h2, if_pos h3]
          exact ih need day la ba
        · simp only [allocate_to_lines, if_neg h1, if_neg h2, if_neg h3]
          rw [ih, allocSum_bumpA]
          omega

theorem bumpA_values_pos (ba : List (String × Int)) (k : String) (v : Int)
    (hba : ∀ kv ∈ ba, 0 < kv.2) (hv : 0 < v) : ∀ kv ∈ bumpA ba k v, 0 < kv.2 := by
  induction ba with
  | nil =>
    intro kv h
    simp [bumpA] at h
    rw [h]
    exact hv
  | cons kv1 rest ih =>
    obtain ⟨k1, w⟩ := kv1
    intro kv h
    by_cases hk : k1 = k
    · simp only [bumpA, if_pos hk, List.mem_cons] at h
      rcases h with h | h
      · rw [h]
        have := hba (k1, w) (List.mem_cons_self _ _)
        simp only at this
        simp only
        omega
      · exact hba kv (List.mem_cons_of_mem _ h)
    · simp only [bumpA, if_neg hk, List.mem_cons] at h
      rcases h with h | h
      · rw [h]; exact hba (k1, w) (List.mem_cons_self _ _)
      · exact ih (fun kv2 h2 => hba kv2 (List.mem_cons_of_mem _ h2)) kv h

theorem alloc_ba_pos : ∀ (lines : List Line) (need : Int) (day : Nat)
    (la : LineAssignments) (ba : List (String × Int)),
    (∀ kv ∈ ba, 0 < kv.2) →
    ∀ kv ∈ (allocate_to_lines lines need day la ba).brand_alloc, 0 < kv.2 := by
  intro lines
  induction lines with
  | nil => intro need day la ba hba; simpa [allocate_to_lines] using hba
  | cons l rest ih =>
    intro need day la ba hba
    by_cases h1 : need ≤ 0
    · simpa [allocate_to_lines, if_pos h1] using hba
    · by_cases h2 : l.remaining ≤ 0
      · simp only [allocate_to_lines, if_neg h1, if_pos h2]
        exact ih need day la ba hba
      · by_cases h3 : min l.remaining need ≤ 0
        · simp only [allocate_to_lines, if_neg h1, if_neg h2, if_pos h3]
          exact ih need day la ba hba
        · simp only [allocate_to_lines, if_neg h1, if_neg h2, if_neg h3]
          exact ih _ _ _ _ (bumpA_values_pos ba _ _ hba (by omega))

theorem allocSumPos_eq_allocSum (ba : List (String × Int)) (h : ∀ kv ∈ ba, 0 < kv.2) :
    allocSumPos ba = allocSum ba := by
  induction ba with
  | nil => simp [allocSumPos, allocSum]
  | cons kv rest ih =>
    have hv := h kv (List.mem_cons_self _ _)
    simp only [allocSumPos, allocSum, if_neg (by omega : ¬ kv.2 ≤ 0)]
    rw [ih (fun kv2 h2 => h kv2 (List.mem_cons_of_mem _ h2))]

theorem innerBatchTotal_bumpA (k bk br : String) (v : Int)
    (inner : List ((String × String) × Int)) :
    innerBatchTotal k (bumpA inner (bk, br) v) =
      innerBatchTotal k inner + (if bk = k then v else 0) := by
  induction inner with
  | nil =>
    simp only [bumpA, innerBatchTotal]
    omega
  | cons kv rest ih =>
    obtain ⟨⟨a, b⟩, q⟩ := kv
    by_cases h : (a, b) = (bk, br)
    · obtain ⟨rfl, rfl⟩ : a = bk ∧ b = br := by
        constructor
        · exact congrArg Prod.fst h
        · exact congrArg Prod.snd h
      simp only [bumpA, if_pos rfl, innerBatchTotal]
      by_cases hk : a = k
      · simp only [if_pos hk]
        omega
      · simp only [if_neg hk]
        omega
    · simp only [bumpA, if_neg h, innerBatchTotal, ih]
      omega

theorem innerBatchTotal_ledgerFold (k bkey : String) :
    ∀ (ba : List (String × Int)) (inner : List ((String × String) × Int)),
    innerBatchTotal k (ba.foldl (fun acc kv =>
        if kv.2 ≤ 0 then acc else bumpA acc (bkey, kv.1) kv.2) inner) =
      innerBatchTotal k inner + (if bkey = k then allocSumPos ba else 0) := by
  intro ba
  induction ba with
  | nil =>
    intro inner
    simp [allocSumPos]
  | cons kv rest ih =>
    intro inner
    by_cases h : kv.2 ≤ 0
    · simp only [List.foldl_cons, if_pos h, ih, allocSumPos]
      by_cases hk : bkey = k <;> simp [hk, if_pos h]
    · simp only [List.foldl_cons, if_neg h, ih, allocSumPos, innerBatchTotal_bumpA]
      by_cases hk : bkey = k
      · simp [hk, if_neg h]
        omega
      · simp [hk, if_neg h]

theorem schedBatchTotal_setA (k : String) (sched : MachineSchedule) (cell : Nat × String)
    (inner : List ((String × String) × Int)) :
    schedBatchTotal k (setA sched cell inner) =
      schedBatchTotal k sched + innerBatchTotal k inner -
        innerBatchTotal k (getDA sched cell []) := by
  induction sched with
  | nil =>
    simp only [setA, schedBatchTotal, getDA, lookupA, Option.getD, innerBatchTotal]
    omega
  | cons c rest ih =>
    obtain ⟨K1, w⟩ := c
    by_cases h : K1 = cell
    · simp only [setA, if_pos h, schedBatchTotal, getDA, lookupA, if_pos h, Option.getD]
      omega
    · simp only [setA, if_neg h, schedBatchTotal, getDA, lookupA, if_neg h, Option.getD] at ih ⊢
      omega

theorem getDA_setA_self {K V : Type} [DecidableEq K] (l : List (K × V)) (k : K) (v d : V) :
    getDA (setA l k v) k d = v := by
  unfold getDA
  rw [lookupA_setA_self]
  rfl

theorem getDA_setA_ne {K V : Type} [DecidableEq K] (l : List (K × V)) (k k2 : K) (v d : V)
    (h : k2 ≠ k) : getDA (setA l k v) k2 d = getDA l k2 d := by
  unfold getDA
  rw [lookupA_setA_ne l k k2 v h]

theorem allocOnMachines_consInv (brem0 : List (String × Int)) (day : Nat) (bkey : String) :
    ∀ (cands : List Machine) (st : DState), ConsInv brem0 st →
      ConsInv brem0 (allocOnMachines day bkey cands st) := by
  intro cands
  induction cands with
  | nil => intro st h; exact h
  | cons mach rest ih =>
    intro st h
    simp only [allocOnMachines]
    split
    · exact ih st h
    · split
      · exact ih st h
      · rename_i hfr batch hlk
        split
        · exact ih _ h
        · rename_i hrt
          have hst3 : ConsInv brem0
              ⟨(allocate_to_lines batch.lines (min (getDA st.mfree (day, mach.id) 0)
                  (getDA st.brem bkey 0)) day st.la []).la,
               setA st.sched (day, mach.id)
                 (List.foldl (fun acc kv => if kv.2 ≤ 0 then acc else bumpA acc (bkey, kv.1) kv.2)
                   (getDA st.sched (day, mach.id) [])
                   (allocate_to_lines batch.lines (min (getDA st.mfree (day, mach.id) 0)
                     (getDA st.brem bkey 0)) day st.la []).brand_alloc),
               setA st.brem bkey (getDA st.brem bkey 0 -
                 (min (getDA st.mfree (day, mach.id) 0) (getDA st.brem bkey 0) -
                   (allocate_to_lines batch.lines (min (getDA st.mfree (day, mach.id) 0)
                     (getDA st.brem bkey 0)) day st.la []).need)),
               setA st.mfree (day, mach.id) (getDA st.mfree (day, mach.id) 0 -
                 (min (getDA st.mfree (day, mach.id) 0) (getDA st.brem bkey 0) -
                   (allocate_to_lines batch.lines (min (getDA st.mfree (day, mach.id) 0)
                     (getDA st.brem bkey 0)) day st.la []).need)),
               setA st.batches bkey { batch with
                 lines := (allocate_to_lines batch.lines (min (getDA st.mfree (day, mach.id) 0)
                   (getDA st.brem bkey 0)) day st.la []).lines }⟩ := by
            intro k
            dsimp only
            set take := min (getDA st.mfree (day, mach.id) 0) (getDA st.brem bkey 0) with htake
            set r := allocate_to_lines batch.lines take day st.la [] with hr
            have hpos : ∀ kv ∈ r.brand_alloc, 0 < kv.2 :=
              alloc_ba_pos batch.lines take day st.la [] (by intro kv hkv; simp at hkv)
            have hsum : allocSum r.brand_alloc = take - r.need := by
              have h2 := alloc_allocSum batch.lines take day st.la []
              rw [← hr] at h2
              simpa [allocSum] using h2
            rw [schedBatchTotal_setA, innerBatchTotal_ledgerFold]
            by_cases hk : k = bkey
            · rw [hk, getDA_setA_self, if_pos rfl, allocSumPos_eq_allocSum _ hpos, hsum]
              have hh := h bkey
              omega
            · rw [getDA_setA_ne _ _ _ _ _ hk,
                if_neg (show ¬ bkey = k from fun hx => hk hx.symm)]
              have hh := h k
              omega
          split
          · exact hst3
          · exact ih _ hst3

theorem distStepBatch_consInv (brem0 : List (String × Int)) (machines : List (String × Machine))
    (routing : List RoutingRule) (day : Nat) (st : DState) (bkey : String)
    (h : ConsInv brem0 st) : ConsInv brem0 (distStepBatch machines routing day st bkey) := by
  unfold distStepBatch
  split
  · exact h
  · split
    · exact h
    · exact allocOnMachines_consInv brem0 day bkey _ st h

theorem lookupA_map_sumRemaining (l : List (String × Batch)) (k : String) :
    lookupA (l.map (fun kv => (kv.1, sumRemaining kv.2.lines))) k =
      Option.map (fun b => sumRemaining b.lines) (lookupA l k) := by
  induction l with
  | nil => simp [lookupA]
  | cons kv rest ih =>
    obtain ⟨k1, v1⟩ := kv
    by_cases h : k1 = k
    · simp [lookupA, h]
    · simp [lookupA, h, ih]

theorem distribute_batches_conservation (batches : List (String × Batch))
    (machines : List (String × Machine)) (routing : List RoutingRule) (k : String) (b : Batch)
    (hb : lookupA batches k = some b) :
    getDA (distribute_batches batches machines routing).2.2.1 k 0 +
      schedBatchTotal k (distribute_batches batches machines routing).2.1 =
      sumRemaining b.lines := by
  unfold distribute_batches
  have hinv : ConsInv (batches.map (fun kv => (kv.1, sumRemaining kv.2.lines)))
      ((List.range (MAX_SHIFT_DAYS + 1)).foldl (fun st day =>
        ((sortByBatchPriorityDesc batches).map (fun kv => kv.1)).foldl
          (distStepBatch machines routing day) st)
        ⟨[], [], batches.map (fun kv => (kv.1, sumRemaining kv.2.lines)),
          initFree machines, batches⟩) := by
    apply foldlPreserve (ConsInv (batches.map (fun kv => (kv.1, sumRemaining kv.2.lines))))
    · intro k2
      simp only [schedBatchTotal]
      omega
    · intro st day hst
      apply foldlPreserve (ConsInv (batches.map (fun kv => (kv.1, sumRemaining kv.2.lines))))
      · exact hst
      · intro st2 bkey hst2
        exact distStepBatch_consInv _ machines routing day st2 bkey hst2
  have hk := hinv k
  have hl : lookupA (batches.map (fun kv => (kv.1, sumRemaining kv.2.lines))) k =
      some (sumRemaining b.lines) := by
    rw [lookupA_map_sumRemaining, hb]
    rfl
  simp only [getDA, hl, Option.getD] at hk
  simpa using hk

theorem sumRemaining_eq_sumPlan (lines : List Line)
    (h : ∀ l ∈ lines, l.remaining = l.plan) : sumRemaining lines = sumPlan lines := by
  induction lines with
  | nil => simp [sumRemaining, sumPlan]
  | cons l rest ih =>
    simp only [sumRemaining, sumPlan]
    rw [h l (List.mem_cons_self _ _), ih (fun l2 h2 => h l2 (List.mem_cons_of_mem _ h2))]

theorem setA_lines_pres (acc : List (String × Batch)) (key : String) (b2 : Batch)
    (hP : ∀ k b, lookupA acc k = some b → ∀ l ∈ b.lines, l.remaining = l.plan)
    (hb2 : ∀ l ∈ b2.lines, l.remaining = l.plan) :
    ∀ k b, lookupA (setA acc key b2) k = some b → ∀ l ∈ b.lines, l.remaining = l.plan := by
  intro k b hlk
  by_cases hk : k = key
  · rw [hk, lookupA_setA_self] at hlk
    obtain rfl : b2 = b := by injection hlk
    exact hb2
  · rw [lookupA_setA_ne _ _ _ _ hk] at hlk
    exact hP k b hlk

theorem build_lines_inv (plan : List PlanRow) : ∀ (acc batches : List (String × Batch)),
    build_batches_loop plan acc = some batches →
    (∀ k b, lookupA acc k = some b → ∀ l ∈ b.lines, l.remaining = l.plan) →
    (∀ k b, lookupA batches k = some b → ∀ l ∈ b.lines, l.remaining = l.plan) := by
  induction plan with
  | nil =>
    intro acc batches h hP
    unfold build_batches_loop at h
    obtain rfl : acc = batches := by injection h
    exact hP
  | cons row rest ih =>
    intro acc batches h hP
    simp only [build_batches_loop] at h
    by_cases hrc : pstrip row.prec = ""
    · rw [if_pos hrc] at h
      exact absurd h (by simp)
    · rw [if_neg hrc] at h
      refine ih _ _ h (setA_lines_pres _ _ _ hP ?_)
      intro l hl
      dsimp only at hl
      rcases List.mem_append.1 hl with h2 | h2
      · cases hc : lookupA acc
            (pstrip row.ptype ++ "||" ++ pstrip row.pcat ++ "||" ++ pstrip row.prec) with
        | none =>
          unfold getDA at h2
          rw [hc] at h2
          simp [fresh_batch] at h2
        | some c =>
          unfold getDA at h2
          rw [hc] at h2
          exact hP _ c hc l h2
      · rw [List.mem_singleton] at h2
        rw [h2]

/-- C2 (confirmed): quantity conservation.  For every batch built by
build_batches, the initial total required quantity of its lines equals the
total quantity recorded for it in the machine-day ledger plus its final
batch_remaining value after distribute_batches. -/
theorem c2_conservation (plan : List PlanRow) (machines : List (String × Machine))
    (routing : List RoutingRule) (batches : List (String × Batch)) (k : String) (b : Batch)
    (la : LineAssignments) (sched : MachineSchedule) (brem : List (String × Int))
    (batches2 : List (String × Batch))
    (hbuild : build_batches plan = some batches)
    (hdist : distribute_batches batches machines routing = (la, sched, brem, batches2))
    (hb : lookupA batches k = some b) :
    sumPlan b.lines = schedBatchTotal k sched + getDA brem k 0 := by
  have hlines := build_lines_inv plan [] batches
    (by simpa [build_batches] using hbuild)
    (by intro k2 b2 h2; simp [lookupA] at h2)
  have hsr : sumRemaining b.lines = sumPlan b.lines :=
    sumRemaining_eq_sumPlan _ (hlines k b hb)
  have hc := distribute_batches_conservation batches machines routing k b hb
  rw [hdist] at hc
  dsimp only at hc
  omega

/-- C2 witness: one plan row of 5 cases, no machines: nothing is ledgered and
the full 5 remain, 5 = 0 + 5. -/
theorem c2_conservation_witness :
    build_batches [⟨0, "b", "t", "c", "r", 5, 0⟩] =
      some [("t||c||r", ⟨"t", "c", "r", 0, [⟨0, "b", 5, 5⟩]⟩)] ∧
    distribute_batches [("t||c||r", ⟨"t", "c", "r", 0, [⟨0, "b", 5, 5⟩]⟩)] [] [] =
      ([], [], [("t||c||r", 5)], [("t||c||r", ⟨"t", "c", "r", 0, [⟨0, "b", 5, 5⟩]⟩)]) ∧
    lookupA [("t||c||r", (⟨"t", "c", "r", 0, [⟨0, "b", 5, 5⟩]⟩ : Batch))] "t||c||r" =
      some (⟨"t", "c", "r", 0, [⟨0, "b", 5, 5⟩]⟩ : Batch) ∧
    sumPlan (⟨"t", "c", "r", 0, [⟨0, "b", 5, 5⟩]⟩ : Batch).lines =
      schedBatchTotal "t||c||r" [] + getDA [("t||c||r", (5 : Int))] "t||c||r" 0 :=
  ⟨by decide, by rfl, by decide,
    c2_conservation [⟨0, "b", "t", "c", "r", 5, 0⟩] [] []
      [("t||c||r", ⟨"t", "c", "r", 0, [⟨0, "b", 5, 5⟩]⟩)] "t||c||r"
      ⟨"t", "c", "r", 0, [⟨0, "b", 5, 5⟩]⟩ [] [] [("t||c||r", 5)]
      [("t||c||r", ⟨"t", "c", "r", 0, [⟨0, "b", 5, 5⟩]⟩)]
      (by decide) (by rfl) (by decide)⟩

theorem keys_bumpA {K : Type} [DecidableEq K] (l : List (K × Int)) (k : K) (v : Int) :
    (bumpA l k v).map Prod.fst =
      if (lookupA l k).isSome then l.map Prod.fst else l.map Prod.fst ++ [k] := by
  induction l with
  | nil => simp [bumpA, lookupA]
  | cons kv rest ih =>
    obtain ⟨k1, w⟩ := kv
    by_cases h : k1 = k
    · simp [bumpA, h, lookupA]
    · simp only [bumpA, if_neg h, lookupA, List.map_cons, ih]
      by_cases h2 : (lookupA rest k).isSome <;> simp [h, h2]

theorem nodup_keys_bumpA {K : Type} [DecidableEq K] (l : List (K × Int)) (k : K) (v : Int)
    (h : (l.map Prod.fst).Nodup) : ((bumpA l k v).map Prod.fst).Nodup := by
  rw [keys_bumpA]
  by_cases h2 : (lookupA l k).isSome
  · simpa [h2] using h
  · have h3 : k ∉ l.map Prod.fst := by
      rw [← lookupA_eq_none_iff]
      exact Option.not_isSome_iff_eq_none.1 h2
    simp [h2, List.nodup_append, h, h3]

theorem keys_eraseA_sublist {K V : Type} [DecidableEq K] (l : List (K × V)) (k : K) :
    List.Sublist ((eraseA l k).map Prod.fst) (l.map Prod.fst) := by
  induction l with
  | nil => simp [eraseA]
  | cons kv rest ih =>
    obtain ⟨k1, w⟩ := kv
    by_cases h : k1 = k
    · simp only [eraseA, if_pos h, List.map_cons]
      exact List.sublist_cons_self _ _
    · simp only [eraseA, if_neg h, List.map_cons]
      exact ih.cons₂ _

theorem nodup_keys_eraseA {K V : Type} [DecidableEq K] (l : List (K × V)) (k : K)
    (h : (l.map Prod.fst).Nodup) : ((eraseA l k).map Prod.fst).Nodup :=
  h.sublist (keys_eraseA_sublist l k)

theorem getDA_inner_nodup (sched : MachineSchedule) (key : Nat × String)
    (h : NodupInner sched) : ((getDA sched key []).map Prod.fst).Nodup := by
  unfold getDA
  cases hc : lookupA sched key with
  | none => simp
  | some v =>
    have := h (key, v) (lookupA_mem sched key v hc)
    simpa using this

theorem nodupInner_setA (sched : MachineSchedule) (key : Nat × String)
    (val : List ((String × String) × Int)) (h : NodupInner sched)
    (hv : (val.map Prod.fst).Nodup) : NodupInner (setA sched key val) := by
  intro cell hm
  rcases mem_setA sched key val cell hm with h2 | h2
  · exact h cell h2
  · rw [h2]; exact hv

theorem allocOnMachines_nodupInner (day : Nat) (bkey : String) :
    ∀ (cands : List Machine) (st : DState), NodupInner st.sched →
      NodupInner (allocOnMachines day bkey cands st).sched := by
  intro cands
  induction cands with
  | nil => intro st h; exact h
  | cons mach rest ih =>
    intro st h
    simp only [allocOnMachines]
    split
    · exact ih st h
    · split
      · exact ih st h
      · rename_i hfr batch hlk
        split
        · exact ih _ h
        · have h3 : NodupInner (setA st.sched (day, mach.id)
              (List.foldl (fun acc kv => if kv.2 ≤ 0 then acc else bumpA acc (bkey, kv.1) kv.2)
                (getDA st.sched (day, mach.id) [])
                (allocate_to_lines batch.lines (min (getDA st.mfree (day, mach.id) 0)
                  (getDA st.brem bkey 0)) day st.la []).brand_alloc)) := by
            apply nodupInner_setA _ _ _ h
            refine foldlPreserve (fun inner : List ((String × String) × Int) =>
              (inner.map Prod.fst).Nodup) _ _ _ ?_ ?_
            · exact getDA_inner_nodup st.sched (day, mach.id) h
            · intro inner kv hin
              by_cases hkv : kv.2 ≤ 0
              · simpa [hkv] using hin
              · simpa [hkv] using nodup_keys_bumpA inner (bkey, kv.1) kv.2 hin
          split
          · exact h3
          · exact ih _ h3

theorem distStepBatch_nodupInner (machines : List (String × Machine))
    (routing : List RoutingRule) (day : Nat) (st : DState) (bkey : String)
    (h : NodupInner st.sched) : NodupInner (distStepBatch machines routing day st bkey).sched := by
  unfold distStepBatch
  split
  · exact h
  · split
    · exact h
    · exact allocOnMachines_nodupInner day bkey _ st h

theorem distribute_nodupInner (batches : List (String × Batch))
    (machines : List (String × Machine)) (routing : List RoutingRule) :
    NodupInner (distribute_batches batches machines routing).2.1 := by
  unfold distribute_batches
  dsimp only
  refine foldlPreserve (fun st : DState => NodupInner st.sched) _ _ _ ?_ ?_
  · intro cell hm; simp at hm
  · intro st day
    refine fun hst => foldlPreserve (fun st2 : DState => NodupInner st2.sched) _ _ _ hst ?_
    intro st2 bkey hst2
    exact distStepBatch_nodupInner machines routing day st2 bkey hst2

theorem getDA_eraseA_self_zero {K : Type} [DecidableEq K] (l : List (K × Int)) (k : K)
    (h : (l.map Prod.fst).Nodup) : getDA (eraseA l k) k 0 = 0 := by
  unfold getDA
  rw [lookupA_eraseA_self_of_nodup l k h]
  rfl

theorem getDA_eraseA_ne {K V : Type} [DecidableEq K] (l : List (K × V)) (k k2 : K) (d : V)
    (h : k2 ≠ k) : getDA (eraseA l k) k2 d = getDA l k2 d := by
  unfold getDA
  rw [lookupA_eraseA_ne l k k2 h]

theorem getDA_bumpA_ne {K : Type} [DecidableEq K] (l : List (K × Int)) (k k2 : K) (v d : Int)
    (h : k2 ≠ k) : getDA (bumpA l k v) k2 d = getDA l k2 d := by
  unfold getDA
  rw [lookupA_bumpA_ne l k k2 v h]

theorem moveEntries_lookupA_other (batches : List (String × Batch)) (dk rk : Nat × String) :
    ∀ (entries : List ((String × String) × Int)) (budget : Int) (sched : MachineSchedule)
      (key : Nat × String), key ≠ dk → key ≠ rk →
      lookupA (moveEntries batches dk rk entries budget sched) key = lookupA sched key := by
  intro entries
  induction entries with
  | nil => intro budget sched key h1 h2; rfl
  | cons e rest ih =>
    intro budget sched key h1 h2
    simp only [moveEntries]
    split
    · rfl
    · split
      · exact ih _ _ _ h1 h2
      · split
        · exact ih _ _ _ h1 h2
        · split
          · exact ih _ _ _ h1 h2
          · rw [ih _ _ _ h1 h2, lookupA_setA_ne _ _ _ _ h2, lookupA_setA_ne _ _ _ _ h1]

theorem moveEntries_nodupInner (batches : List (String × Batch)) (dk rk : Nat × String) :
    ∀ (entries : List ((String × String) × Int)) (budget : Int) (sched : MachineSchedule),
      NodupInner sched → NodupInner (moveEntries batches dk rk entries budget sched) := by
  intro entries
  induction entries with
  | nil => intro budget sched hn; exact hn
  | cons e rest ih =>
    intro budget sched hn
    simp only [moveEntries]
    split
    · exact hn
    · split
      · exact ih _ _ hn
      · split
        · exact ih _ _ hn
        · split
          · exact ih _ _ hn
          · apply ih
            have hn2 : NodupInner (setA sched dk (eraseA (getDA sched dk []) e.1)) :=
              nodupInner_setA _ _ _ hn (nodup_keys_eraseA _ _ (getDA_inner_nodup sched dk hn))
            exact nodupInner_setA _ _ _ hn2
              (nodup_keys_bumpA _ _ _ (getDA_inner_nodup _ rk hn2))

theorem moveEntries_unsplit (batches : List (String × Batch)) (dk rk : Nat × String)
    (k : String × String) (hne : dk ≠ rk) :
    ∀ (entries : List ((String × String) × Int)) (budget : Int) (sched : MachineSchedule),
      NodupInner sched →
      (getDA (getDA sched dk []) k 0 = 0 ∨ getDA (getDA sched rk []) k 0 = 0) →
      (getDA (getDA (moveEntries batches dk rk entries budget sched) dk []) k 0 = 0 ∨
       getDA (getDA (moveEntries batches dk rk entries budget sched) rk []) k 0 = 0) := by
  intro entries
  induction entries with
  | nil => intro budget sched hn hu; exact hu
  | cons e rest ih =>
    intro budget sched hn hu
    simp only [moveEntries]
    split
    · exact hu
    · split
      · exact ih _ _ hn hu
      · split
        · exact ih _ _ hn hu
        · split
          · exact ih _ _ hn hu
          · set donor := getDA sched dk [] with hdonor
            set sched2 := setA sched dk (eraseA donor e.1) with hsched2
            set recv := getDA sched2 rk [] with hrecv
            set sched3 := setA sched2 rk (bumpA recv e.1 e.2) with hsched3
            have hnd : (donor.map Prod.fst).Nodup := getDA_inner_nodup sched dk hn
            have hn2 : NodupInner sched2 := by
              rw [hsched2]
              exact nodupInner_setA _ _ _ hn (nodup_keys_eraseA _ _ hnd)
            have hn3 : NodupInner sched3 := by
              rw [hsched3]
              exact nodupInner_setA _ _ _ hn2 (nodup_keys_bumpA _ _ _ (getDA_inner_nodup _ rk hn2))
            refine ih _ _ hn3 ?_
            have hDk : getDA sched3 dk [] = eraseA donor e.1 := by
              rw [hsched3, getDA_setA_ne _ _ _ _ _ hne, hsched2, getDA_setA_self]
            have hRk : getDA sched3 rk [] = bumpA recv e.1 e.2 := by
              rw [hsched3, getDA_setA_self]
            by_cases hek : e.1 = k
            · left
              rw [hDk, hek]
              exact getDA_eraseA_self_zero donor k hnd
            · have hqd : getDA (getDA sched3 dk []) k 0 = getDA donor k 0 := by
                rw [hDk, getDA_eraseA_ne donor e.1 k 0 (fun hh => hek hh.symm)]
              have hrecv2 : recv = getDA sched rk [] := by
                rw [hrecv, hsched2, getDA_setA_ne _ _ _ _ _ (Ne.symm hne)]
              have hqr : getDA (getDA sched3 rk []) k 0 = getDA (getDA sched rk []) k 0 := by
                rw [hRk, getDA_bumpA_ne recv e.1 k e.2 0 (fun hh => hek hh.symm), hrecv2]
              rcases hu with hu | hu
              · left
                rw [hqd]
                exact hu
              · right
                rw [hqr]
                exact hu

theorem getDA_schedEnsure (sched : MachineSchedule) (rk key : Nat × String) :
    getDA (if hasKeyA sched rk = true then sched else setA sched rk []) key [] =
      getDA sched key [] := by
  by_cases h : hasKeyA sched rk = true
  · rw [if_pos h]
  · rw [if_neg h]
    by_cases hk : key = rk
    · subst hk
      rw [getDA_setA_self]
      unfold hasKeyA at h
      have hnone : lookupA sched key = none := Option.not_isSome_iff_eq_none.1 (by simpa using h)
      unfold getDA
      rw [hnone]
      rfl
    · rw [getDA_setA_ne _ _ _ _ _ hk]

theorem nodupInner_schedEnsure (sched : MachineSchedule) (rk : Nat × String)
    (h : NodupInner sched) :
    NodupInner (if hasKeyA sched rk = true then sched else setA sched rk []) := by
  by_cases hc : hasKeyA sched rk = true
  · rw [if_pos hc]; exact h
  · rw [if_neg hc]
    exact nodupInner_setA _ _ _ h (by simp)

theorem moveEntries_getQ_other (batches : List (String × Batch)) (dk rk : Nat × String)
    (entries : List ((String × String) × Int)) (budget : Int) (sched : MachineSchedule)
    (day : Nat) (mid : String) (k : String × String)
    (h1 : (day, mid) ≠ dk) (h2 : (day, mid) ≠ rk) :
    getQ (moveEntries batches dk rk entries budget sched) day mid k = getQ sched day mid k := by
  unfold getQ getDA
  rw [moveEntries_lookupA_other batches dk rk entries budget sched (day, mid) h1 h2]

theorem balanceDay_pres (batches : List (String × Batch)) (m1_id m2_id : String)
    (mach1 mach2 : Machine) (day d : Nat) (k : String × String) (hne : m1_id ≠ m2_id)
    (sched : MachineSchedule) (hn : NodupInner sched)
    (hu : getQ sched day m1_id k = 0 ∨ getQ sched day m2_id k = 0) :
    NodupInner (balanceDay sched batches m1_id m2_id mach1 mach2 d) ∧
      (getQ (balanceDay sched batches m1_id m2_id mach1 mach2 d) day m1_id k = 0 ∨
       getQ (balanceDay sched batches m1_id m2_id mach1 mach2 d) day m2_id k = 0) := by
  have hpair : ∀ (a b : String), a ≠ b → ((d, a) : Nat × String) ≠ (d, b) := by
    intro a b hab hp
    exact hab (congrArg Prod.snd hp)
  have hday : ∀ (a b : String), d ≠ day → ((day, a) : Nat × String) ≠ (d, b) := by
    intro a b hd hp
    exact hd (congrArg Prod.fst hp).symm
  simp only [balanceDay]
  split
  · exact ⟨hn, hu⟩
  · split
    · exact ⟨hn, hu⟩
    · by_cases hc : (dayLoads sched batches d m1_id m2_id).2 <
          (dayLoads sched batches d m1_id m2_id).1
      · simp only [if_pos hc]
        split
        · exact ⟨hn, hu⟩
        · split
          · exact ⟨hn, hu⟩
          · split
            · exact ⟨hn, hu⟩
            · set sched1 := if hasKeyA sched (d, m2_id) = true then sched
                else setA sched (d, m2_id) [] with hs1
              have hn1 : NodupInner sched1 := by
                rw [hs1]
                exact nodupInner_schedEnsure sched (d, m2_id) hn
              have hu1 : getQ sched1 day m1_id k = 0 ∨ getQ sched1 day m2_id k = 0 := by
                unfold getQ
                rw [hs1, getDA_schedEnsure, getDA_schedEnsure]
                exact hu
              constructor
              · exact moveEntries_nodupInner _ _ _ _ _ _ hn1
              · by_cases hd : d = day
                · subst hd
                  exact moveEntries_unsplit batches (d, m1_id) (d, m2_id) k
                    (hpair _ _ hne) _ _ _ hn1 hu1
                · rw [moveEntries_getQ_other batches (d, m1_id) (d, m2_id) _ _ _ day m1_id k
                      (hday _ _ hd) (hday _ _ hd),
                    moveEntries_getQ_other batches (d, m1_id) (d, m2_id) _ _ _ day m2_id k
                      (hday _ _ hd) (hday _ _ hd)]
                  exact hu1
      · simp only [if_neg hc]
        split
        · exact ⟨hn, hu⟩
        · split
          · exact ⟨hn, hu⟩
          · split
            · exact ⟨hn, hu⟩
            · set sched1 := if hasKeyA sched (d, m1_id) = true then sched
                else setA sched (d, m1_id) [] with hs1
              have hn1 : NodupInner sched1 := by
                rw [hs1]
                exact nodupInner_schedEnsure sched (d, m1_id) hn
              have hu1 : getQ sched1 day m2_id k = 0 ∨ getQ sched1 day m1_id k = 0 := by
                unfold getQ
                rw [hs1, getDA_schedEnsure, getDA_schedEnsure]
                exact hu.symm
              constructor
              · exact moveEntries_nodupInner _ _ _ _ _ _ hn1
              · by_cases hd : d = day
                · subst hd
                  exact (moveEntries_unsplit batches (d, m2_id) (d, m1_id) k
                    (hpair _ _ (Ne.symm hne)) _ _ _ hn1 hu1).symm
                · rw [moveEntries_getQ_other batches (d, m2_id) (d, m1_id) _ _ _ day m1_id k
                      (hday _ _ hd) (hday _ _ hd),
                    moveEntries_getQ_other batches (d, m2_id) (d, m1_id) _ _ _ day m2_id k
                      (hday _ _ hd) (hday _ _ hd)]
                  exact hu1.symm

/-- C4 (amended): distribute_batches itself may split a (batch key, brand)
unit across the two twin machines (see the counterexample), but the balancer
never introduces a split: on any schedule produced by distribute_batches, for
every day and unit that lies wholly on one of the two distinct twins before
the balancing pass, the unit still lies wholly on one of them afterwards —
entries are only ever moved whole. -/
theorem c4_atomic_balancing_amended (batches : List (String × Batch))
    (machines : List (String × Machine)) (routing : List RoutingRule)
    (la : LineAssignments) (sched : MachineSchedule) (brem : List (String × Int))
    (batches2 : List (String × Batch)) (m1_id m2_id : String) (day : Nat) (k : String × String)
    (hdist : distribute_batches batches machines routing = (la, sched, brem, batches2))
    (hne : m1_id ≠ m2_id)
    (hbefore : getQ sched day m1_id k = 0 ∨ getQ sched day m2_id k = 0) :
    getQ (balance_soy_pp_between_two_machines sched machines batches2 m1_id m2_id)
        day m1_id k = 0 ∨
    getQ (balance_soy_pp_between_two_machines sched machines batches2 m1_id m2_id)
        day m2_id k = 0 := by
  have hn : NodupInner sched := by
    have h2 := distribute_nodupInner batches machines routing
    rw [hdist] at h2
    exact h2
  unfold balance_soy_pp_between_two_machines
  split
  · rename_i mach1 mach2 h1 h2
    split
    · exact hbefore
    · have hfold := foldlPreserve
        (fun s : MachineSchedule => NodupInner s ∧
          (getQ s day m1_id k = 0 ∨ getQ s day m2_id k = 0))
        (fun s day2 => balanceDay s batches2 m1_id m2_id mach1 mach2 day2)
        (List.range (MAX_SHIFT_DAYS + 1)) sched ⟨hn, hbefore⟩ ?_
      · exact hfold.2
      · intro s day2 hp
        exact balanceDay_pres batches2 m1_id m2_id mach1 mach2 day day2 k hne s hp.1 hp.2
  · exact hbefore

/-- C4 witness: a 30-case soy unit fits on soy_pp_1 whole; the balancer
(budget 15) cannot move it whole and leaves it unsplit on soy_pp_1. -/
theorem c4_atomic_balancing_witness :
    distribute_batches [("ПП||соевый||r", ⟨"ПП", "соевый", "r", 0, [⟨0, "b", 30, 30⟩]⟩)]
        c4machines [] =
      ([(0, [(0, 30)])],
       [((0, "soy_pp_1"), [(("ПП||соевый||r", "b"), 30)])],
       [("ПП||соевый||r", 0)],
       [("ПП||соевый||r", ⟨"ПП", "соевый", "r", 0, [⟨0, "b", 30, 0⟩]⟩)]) ∧
    "soy_pp_1" ≠ "soy_pp_2" ∧
    (getQ [((0, "soy_pp_1"), [(("ПП||соевый||r", "b"), 30)])] 0 "soy_pp_1"
        ("ПП||соевый||r", "b") = 0 ∨
     getQ [((0, "soy_pp_1"), [(("ПП||соевый||r", "b"), 30)])] 0 "soy_pp_2"
        ("ПП||соевый||r", "b") = 0) ∧
    (getQ (balance_soy_pp_between_two_machines
        [((0, "soy_pp_1"), [(("ПП||соевый||r", "b"), 30)])] c4machines
        [("ПП||соевый||r", ⟨"ПП", "соевый", "r", 0, [⟨0, "b", 30, 0⟩]⟩)]
        "soy_pp_1" "soy_pp_2") 0 "soy_pp_1" ("ПП||соевый||r", "b") = 0 ∨
     getQ (balance_soy_pp_between_two_machines
        [((0, "soy_pp_1"), [(("ПП||соевый||r", "b"), 30)])] c4machines
        [("ПП||соевый||r", ⟨"ПП", "соевый", "r", 0, [⟨0, "b", 30, 0⟩]⟩)]
        "soy_pp_1" "soy_pp_2") 0 "soy_pp_2" ("ПП||соевый||r", "b") = 0) :=
  ⟨by rfl, by decide, Or.inr (by decide),
    c4_atomic_balancing_amended
      [("ПП||соевый||r", ⟨"ПП", "соевый", "r", 0, [⟨0, "b", 30, 30⟩]⟩)] c4machines []
      [(0, [(0, 30)])] [((0, "soy_pp_1"), [(("ПП||соевый||r", "b"), 30)])]
      [("ПП||соевый||r", 0)] [("ПП||соевый||r", ⟨"ПП", "соевый", "r", 0, [⟨0, "b", 30, 0⟩]⟩)]
      "soy_pp_1" "soy_pp_2" 0 ("ПП||соевый||r", "b")
      (by rfl) (by decide) (Or.inr (by decide))⟩

theorem sumRemaining_nonneg (lines : List Line) (h : ∀ l ∈ lines, 0 ≤ l.remaining) :
    0 ≤ sumRemaining lines := by
  induction lines with
  | nil => simp [sumRemaining]
  | cons l rest ih =>
    have h1 := h l (List.mem_cons_self _ _)
    have h2 := ih (fun l2 h2 => h l2 (List.mem_cons_of_mem _ h2))
    simp only [sumRemaining]
    omega

theorem alloc_need (lines : List Line) : ∀ (q : Int) (day : Nat) (la : LineAssignments)
    (ba : List (String × Int)), (∀ l ∈ lines, 0 ≤ l.remaining) → 0 ≤ q →
    (allocate_to_lines lines q day la ba).need = q - min q (sumRemaining lines) := by
  induction lines with
  | nil =>
    intro q day la ba _ hq
    simp only [allocate_to_lines, sumRemaining]
    omega
  | cons l rest ih =>
    intro q day la ba hl hq
    have hl0 := hl l (List.mem_cons_self _ _)
    have hlr : ∀ l2 ∈ rest, 0 ≤ l2.remaining := fun l2 h2 => hl l2 (List.mem_cons_of_mem _ h2)
    have hsr : 0 ≤ sumRemaining rest := sumRemaining_nonneg rest hlr
    by_cases h1 : q ≤ 0
    · have hq0 : q = 0 := by omega
      simp only [allocate_to_lines, if_pos h1, sumRemaining]
      omega
    · by_cases h2 : l.remaining ≤ 0
      · have hr0 : l.remaining = 0 := by omega
        simp only [allocate_to_lines, if_neg h1, if_pos h2, sumRemaining]
        rw [ih q day la ba hlr hq]
        omega
      · by_cases h3 : min l.remaining q ≤ 0
        · omega
        · simp only [allocate_to_lines, if_neg h1, if_neg h2, if_neg h3, sumRemaining]
          rw [ih (q - min l.remaining q) day _ _ hlr (by omega)]
          omega

theorem nodup_append_singleton {α : Type} (l : List α) (a : α) (h : l.Nodup) (ha : a ∉ l) :
    (l ++ [a]).Nodup := by
  simp [List.nodup_append, h, ha]

theorem routingFold_nodup : ∀ (rs : List RoutingRule) (acc : List String), acc.Nodup →
    (rs.foldl (fun acc r =>
      if pstrip r.preferred_machine_id ≠ "" ∧ pstrip r.preferred_machine_id ∉ acc
      then acc ++ [pstrip r.preferred_machine_id] else acc) acc).Nodup := by
  intro rs
  induction rs with
  | nil => intro acc h; exact h
  | cons r rest ih =>
    intro acc h
    simp only [List.foldl_cons]
    by_cases hc : pstrip r.preferred_machine_id ≠ "" ∧ pstrip r.preferred_machine_id ∉ acc
    · rw [if_pos hc]
      exact ih _ (nodup_append_singleton acc _ h hc.2)
    · rw [if_neg hc]
      exact ih _ h

theorem filterMap_count_one {α β : Type} [DecidableEq α] (f : α → Option β) (a : α) (y : β)
    (hf : ∀ x, f x = if x = a then some y else none) :
    ∀ l : List α, l.count a = 1 → l.filterMap f = [y] := by
  intro l
  induction l with
  | nil => intro h; simp at h
  | cons x xs ih =>
    intro h
    by_cases hx : x = a
    · subst hx
      have hcnt : xs.count x = 0 := by
        have := List.count_cons_self x xs
        omega
      have hxs : xs.filterMap f = [] := by
        rw [List.filterMap_eq_nil_iff]
        intro b hb
        rw [hf b, if_neg]
        intro hba
        subst hba
        exact absurd (List.count_eq_zero.1 hcnt) (by simpa using hb)
      simp only [List.filterMap_cons, hf x, hxs]
      simp
    · have hcnt : xs.count a = 1 := by
        rw [List.count_cons] at h
        simpa [hx] using h
      simp only [List.filterMap_cons, hf x, if_neg hx]
      exact ih hcnt

theorem candidates_single (m : Machine) (routing : List RoutingRule) (pt cat rc : String)
    (hact : m.active = true) (hcp : m.can_produce pt cat = true) :
    get_candidate_machines_for_product [(m.id, m)] routing pt cat rc = [m] := by
  have hcp2 : m.can_produce (pstrip pt) (pstrip cat) = true := by
    rw [can_produce_pstrip]
    exact hcp
  simp only [get_candidate_machines_for_product, List.foldl_cons, List.foldl_nil]
  set ids1 := (sortByRulePriority (List.filter (fun r =>
    pstrip r.rtype == pstrip pt && pstrip r.rcat == pstrip cat &&
      pstrip r.rrec == pstrip rc && r.active) routing)).foldl (fun acc r =>
    if pstrip r.preferred_machine_id ≠ "" ∧ pstrip r.preferred_machine_id ∉ acc
    then acc ++ [pstrip r.preferred_machine_id] else acc) ([] : List String) with hids1
  have hnd : ids1.Nodup := by
    rw [hids1]
    exact routingFold_nodup _ [] (by simp)
  have hstep : (if m.active = true ∧ m.can_produce (pstrip pt) (pstrip cat) = true ∧
      m.id ∉ ids1 then ids1 ++ [m.id] else ids1).count m.id = 1 := by
    by_cases hmem : m.id ∈ ids1
    · rw [if_neg (by intro hcc; exact hcc.2.2 hmem)]
      exact List.count_eq_one_of_mem hnd hmem
    · rw [if_pos ⟨hact, hcp2, hmem⟩, List.count_append]
      rw [List.count_eq_zero.2 hmem]
      simp
  have hf : ∀ x, (fun mid => match lookupA [(m.id, m)] mid with
      | some mach => if mach.active = true ∧ mach.can_produce (pstrip pt) (pstrip cat) = true
          then some mach else none
      | none => none) x = if x = m.id then some m else none := by
    intro x
    by_cases hx : x = m.id
    · subst hx
      simp [lookupA, hact, hcp2]
    · have hxs : m.id ≠ x := fun hh => hx hh.symm
      have hlk : lookupA [(m.id, m)] x = none := by
        simp [lookupA, hxs]
      simp only [hlk, if_neg hx]
  rw [filterMap_count_one _ m.id m hf _ hstep]
  simp [sortByMachinePriority, insertByMachinePriority]

theorem distStepBatch_skip (machines : List (String × Machine)) (routing : List RoutingRule)
    (day : Nat) (st : DState) (bkey : String) (h : getDA st.brem bkey 0 ≤ 0) :
    distStepBatch machines routing day st bkey = st := by
  unfold distStepBatch
  rw [if_pos h]

theorem distStepBatch_free0 (m : Machine) (routing : List RoutingRule) (day : Nat)
    (st : DState) (bkey : String) (batch : Batch)
    (hact : m.active = true) (hlk : lookupA st.batches bkey = some batch)
    (hcp : m.can_produce batch.btype batch.bcat = true)
    (hfree : getDA st.mfree (day, m.id) 0 ≤ 0) :
    distStepBatch [(m.id, m)] routing day st bkey = st := by
  unfold distStepBatch
  by_cases h0 : getDA st.brem bkey 0 ≤ 0
  · rw [if_pos h0]
  · rw [if_neg h0, hlk]
    dsimp only
    rw [candidates_single m routing batch.btype batch.bcat batch.brec hact hcp]
    unfold allocOnMachines
    rw [if_pos (Or.inl hfree)]
    rfl

theorem allocOnMachines_lookupA_sched_ne (day : Nat) (bkey : String) :
    ∀ (cands : List Machine) (st : DState) (key : Nat × String), key.1 ≠ day →
      lookupA (allocOnMachines day bkey cands st).sched key = lookupA st.sched key := by
  intro cands
  induction cands with
  | nil => intro st key hkey; rfl
  | cons mach rest ih =>
    intro st key hkey
    simp only [allocOnMachines]
    split
    · exact ih st key hkey
    · split
      · exact ih st key hkey
      · rename_i hfr batch hlk
        split
        · exact ih _ key hkey
        · split
          · dsimp only
            rw [lookupA_setA_ne _ _ _ _ (fun hp => hkey (congrArg Prod.fst hp))]
          · rw [ih _ key hkey]
            dsimp only
            rw [lookupA_setA_ne _ _ _ _ (fun hp => hkey (congrArg Prod.fst hp))]

theorem distStepBatch_lookupA_sched_ne (machines : List (String × Machine))
    (routing : List RoutingRule) (day : Nat) (st : DState) (bkey : String)
    (key : Nat × String) (hkey : key.1 ≠ day) :
    lookupA (distStepBatch machines routing day st bkey).sched key = lookupA st.sched key := by
  unfold distStepBatch
  split
  · rfl
  · split
    · rfl
    · exact allocOnMachines_lookupA_sched_ne day bkey _ st key hkey

theorem foldKeys_lookupA_sched_ne (machines : List (String × Machine))
    (routing : List RoutingRule) (day : Nat) :
    ∀ (keys : List String) (st : DState) (key : Nat × String), key.1 ≠ day →
      lookupA ((keys.foldl (distStepBatch machines routing day) st).sched) key =
        lookupA st.sched key := by
  intro keys
  induction keys with
  | nil => intro st key hkey; rfl
  | cons bkey rest ih =>
    intro st key hkey
    simp only [List.foldl_cons]
    rw [ih _ key hkey, distStepBatch_lookupA_sched_ne machines routing day st bkey key hkey]

theorem distStepBatch_alloc (m : Machine) (routing : List RoutingRule) (day : Nat)
    (st : DState) (bkey : String) (batch : Batch)
    (hact : m.active = true) (hlk : lookupA st.batches bkey = some batch)
    (hcp : m.can_produce batch.btype batch.bcat = true)
    (hlines : ∀ l ∈ batch.lines, 0 ≤ l.remaining)
    (hsync : sumRemaining batch.lines = getDA st.brem bkey 0)
    (hR : 0 < getDA st.brem bkey 0)
    (hF : 0 < getDA st.mfree (day, m.id) 0) :
    (∀ key : Nat × String, key ≠ (day, m.id) →
      lookupA (distStepBatch [(m.id, m)] routing day st bkey).sched key =
        lookupA st.sched key) ∧
    innerBatchTotal bkey
        (getDA (distStepBatch [(m.id, m)] routing day st bkey).sched (day, m.id) []) =
      innerBatchTotal bkey (getDA st.sched (day, m.id) []) +
        min (getDA st.mfree (day, m.id) 0) (getDA st.brem bkey 0) ∧
    (∀ k2, k2 ≠ bkey →
      innerBatchTotal k2
          (getDA (distStepBatch [(m.id, m)] routing day st bkey).sched (day, m.id) []) =
        innerBatchTotal k2 (getDA st.sched (day, m.id) [])) ∧
    getDA (distStepBatch [(m.id, m)] routing day st bkey).brem bkey 0 =
      getDA st.brem bkey 0 - min (getDA st.mfree (day, m.id) 0) (getDA st.brem bkey 0) ∧
    (∀ k2, k2 ≠ bkey →
      lookupA (distStepBatch [(m.id, m)] routing day st bkey).brem k2 =
        lookupA st.brem k2) ∧
    getDA (distStepBatch [(m.id, m)] routing day st bkey).mfree (day, m.id) 0 =
      getDA st.mfree (day, m.id) 0 - min (getDA st.mfree (day, m.id) 0) (getDA st.brem bkey 0) ∧
    (∀ k2, k2 ≠ bkey →
      lookupA (distStepBatch [(m.id, m)] routing day st bkey).batches k2 =
        lookupA st.batches k2) := by
  have hneed : (allocate_to_lines batch.lines
      (min (getDA st.mfree (day, m.id) 0) (getDA st.brem bkey 0)) day st.la []).need = 0 := by
    rw [alloc_need batch.lines _ day st.la [] hlines (by omega), hsync]
    omega
  have hpos : ∀ kv ∈ (allocate_to_lines batch.lines
      (min (getDA st.mfree (day, m.id) 0) (getDA st.brem bkey 0)) day st.la []).brand_alloc,
      0 < kv.2 :=
    alloc_ba_pos batch.lines _ day st.la [] (by intro kv hkv; simp at hkv)
  have hsum : allocSum (allocate_to_lines batch.lines
      (min (getDA st.mfree (day, m.id) 0) (getDA st.brem bkey 0)) day st.la []).brand_alloc =
      min (getDA st.mfree (day, m.id) 0) (getDA st.brem bkey 0) := by
    have h2 := alloc_allocSum batch.lines
      (min (getDA st.mfree (day, m.id) 0) (getDA st.brem bkey 0)) day st.la []
    rw [hneed] at h2
    simpa [allocSum] using h2
  have hres : distStepBatch [(m.id, m)] routing day st bkey =
      ⟨(allocate_to_lines batch.lines
          (min (getDA st.mfree (day, m.id) 0) (getDA st.brem bkey 0)) day st.la []).la,
       setA st.sched (day, m.id)
         (List.foldl (fun acc kv => if kv.2 ≤ 0 then acc else bumpA acc (bkey, kv.1) kv.2)
           (getDA st.sched (day, m.id) [])
           (allocate_to_lines batch.lines
             (min (getDA st.mfree (day, m.id) 0) (getDA st.brem bkey 0)) day st.la
             []).brand_alloc),
       setA st.brem bkey (getDA st.brem bkey 0 -
         (min (getDA st.mfree (day, m.id) 0) (getDA st.brem bkey 0) -
           (allocate_to_lines batch.lines
             (min (getDA st.mfree (day, m.id) 0) (getDA st.brem bkey 0)) day st.la []).need)),
       setA st.mfree (day, m.id) (getDA st.mfree (day, m.id) 0 -
         (min (getDA st.mfree (day, m.id) 0) (getDA st.brem bkey 0) -
           (allocate_to_lines batch.lines
             (min (getDA st.mfree (day, m.id) 0) (getDA st.brem bkey 0)) day st.la []).need)),
       setA st.batches bkey { batch with
         lines := (allocate_to_lines batch.lines
           (min (getDA st.mfree (day, m.id) 0) (getDA st.brem bkey 0)) day st.la
           []).lines }⟩ := by
    unfold distStepBatch
    rw [if_neg (by omega : ¬ getDA st.brem bkey 0 ≤ 0), hlk]
    dsimp only
    rw [candidates_single m routing batch.btype batch.bcat batch.brec hact hcp]
    unfold allocOnMachines
    rw [if_neg (by omega :
      ¬ (getDA st.mfree (day, m.id) 0 ≤ 0 ∨ getDA st.brem bkey 0 ≤ 0)), hlk]
    dsimp only
    rw [hneed]
    rw [if_neg (by omega :
      ¬ min (getDA st.mfree (day, m.id) 0) (getDA st.brem bkey 0) - 0 ≤ 0)]
    split
    · rfl
    · rfl
  rw [hres]
  dsimp only
  refine ⟨?_, ?_, ?_, ?_, ?_, ?_, ?_⟩
  · intro key hkey
    rw [lookupA_setA_ne _ _ _ _ hkey]
  · rw [getDA_setA_self, innerBatchTotal_ledgerFold, if_pos rfl,
      allocSumPos_eq_allocSum _ hpos, hsum]
  · intro k2 h2
    rw [getDA_setA_self, innerBatchTotal_ledgerFold,
      if_neg (show ¬ bkey = k2 from fun hh => h2 hh.symm)]
    omega
  · rw [getDA_setA_self, hneed]
    omega
  · intro k2 h2
    rw [lookupA_setA_ne _ _ _ _ h2]
  · rw [getDA_setA_self, hneed]
    omega
  · intro k2 h2
    rw [lookupA_setA_ne _ _ _ _ h2]

/-- C6 (confirmed): with two batches of different aggregate priority and a
single eligible machine, day 0 serves the higher-priority batch A up to
capacity first: A receives min(capacity, total A) on day 0 and B receives
only what is left, min(capacity - min(capacity, total A), total B). -/
theorem c6_priority_ordering (m : Machine) (routing : List RoutingRule) (kA kB : String)
    (A B : Batch)
    (hact : m.active = true) (hcap : 0 < m.daily_capacity)
    (hcpA : m.can_produce A.btype A.bcat = true) (hcpB : m.can_produce B.btype B.bcat = true)
    (hA : ∀ l ∈ A.lines, 0 ≤ l.remaining) (hB : ∀ l ∈ B.lines, 0 ≤ l.remaining)
    (hPrio : B.priority < A.priority) (hk : kA ≠ kB) :
    batchDayTotal (distribute_batches [(kA, A), (kB, B)] [(m.id, m)] routing).2.1 0 m.id kA =
      min m.daily_capacity (sumRemaining A.lines) ∧
    batchDayTotal (distribute_batches [(kA, A), (kB, B)] [(m.id, m)] routing).2.1 0 m.id kB =
      min (m.daily_capacity - min m.daily_capacity (sumRemaining A.lines))
        (sumRemaining B.lines) := by
  have htA : 0 ≤ sumRemaining A.lines := sumRemaining_nonneg A.lines hA
  have htB : 0 ≤ sumRemaining B.lines := sumRemaining_nonneg B.lines hB
  have hkeys : (sortByBatchPriorityDesc [(kA, A), (kB, B)]).map (fun kv => kv.1) = [kA, kB] := by
    simp [sortByBatchPriorityDesc, insertByBatchPriorityDesc,
      show ¬ A.priority < B.priority from by omega]
  unfold batchDayTotal distribute_batches
  dsimp only
  simp only [hkeys, List.map_cons, List.map_nil]
  rw [show List.range (MAX_SHIFT_DAYS + 1) = [0, 1, 2] from rfl]
  simp only [List.foldl_cons, List.foldl_nil]
  set st0 : DState := ⟨[], [], [(kA, sumRemaining A.lines), (kB, sumRemaining B.lines)],
    initFree [(m.id, m)], [(kA, A), (kB, B)]⟩ with hst0d
  have hpres : ∀ (st : DState) (d : Nat), d ≠ 0 →
      getDA ((distStepBatch [(m.id, m)] routing d
        (distStepBatch [(m.id, m)] routing d st kA) kB).sched) (0, m.id) [] =
      getDA st.sched (0, m.id) [] := by
    intro st d hd
    unfold getDA
    rw [distStepBatch_lookupA_sched_ne _ _ _ _ _ _ (Ne.symm hd),
        distStepBatch_lookupA_sched_ne _ _ _ _ _ _ (Ne.symm hd)]
  rw [hpres _ 2 (by decide), hpres _ 1 (by decide)]
  set st1 := distStepBatch [(m.id, m)] routing 0 st0 kA with hst1d
  have hb0A : getDA st0.brem kA 0 = sumRemaining A.lines := by
    simp [hst0d, getDA, lookupA]
  have hb0B : getDA st0.brem kB 0 = sumRemaining B.lines := by
    simp [hst0d, getDA, lookupA, hk]
  have hb0Al : getDA [(kA, sumRemaining A.lines), (kB, sumRemaining B.lines)] kA 0 =
      sumRemaining A.lines := hb0A
  have hb0Bl : getDA [(kA, sumRemaining A.lines), (kB, sumRemaining B.lines)] kB 0 =
      sumRemaining B.lines := hb0B
  have hlkA : lookupA st0.batches kA = some A := by
    simp [hst0d, lookupA]
  have hlkB : lookupA st0.batches kB = some B := by
    simp [hst0d, lookupA, hk]
  have hsched0 : getDA st0.sched (0, m.id) [] = [] := by
    simp [hst0d, getDA, lookupA]
  have hfree0 : getDA st0.mfree (0, m.id) 0 = m.daily_capacity := by
    show getDA (initFree [(m.id, m)]) (0, m.id) 0 = m.daily_capacity
    unfold initFree
    rw [show List.range (MAX_SHIFT_DAYS + 1) = [0, 1, 2] from rfl]
    simp [hact, setA, getDA, lookupA]
  by_cases hA0 : sumRemaining A.lines ≤ 0
  · -- batch A is empty: its step is a skip
    have hst1 : st1 = st0 := by
      rw [hst1d]
      exact distStepBatch_skip _ _ _ _ _ (by rw [hb0A]; omega)
    rw [hst1]
    by_cases hB0 : sumRemaining B.lines ≤ 0
    · have hst2 : distStepBatch [(m.id, m)] routing 0 st0 kB = st0 :=
        distStepBatch_skip _ _ _ _ _ (by rw [hb0B]; omega)
      rw [hst2, hsched0]
      simp only [innerBatchTotal]
      omega
    · obtain ⟨b1, b2, b3, b4, b5, b6, b7⟩ :=
        distStepBatch_alloc m routing 0 st0 kB B hact hlkB hcpB hB hb0B.symm
          (by rw [hb0B]; omega) (by rw [hfree0]; omega)
      rw [hb0B] at b2
      rw [hfree0] at b2
      constructor
      · rw [b3 kA hk, hsched0]
        simp only [innerBatchTotal]
        omega
      · rw [b2, hsched0]
        simp only [innerBatchTotal]
        omega
  · -- batch A allocates min(cap, tA)
    obtain ⟨a1, a2, a3, a4, a5, a6, a7⟩ :=
      distStepBatch_alloc m routing 0 st0 kA A hact hlkA hcpA hA hb0A.symm
        (by rw [hb0A]; omega) (by rw [hfree0]; omega)
    rw [hfree0] at a2 a4 a6
    rw [hb0A] at a4 a6
    rw [← hst1d] at a2 a3 a4 a5 a6 a7
    have hlkB1 : lookupA st1.batches kB = some B := by
      rw [a7 kB (Ne.symm hk), hlkB]
    have hbrem1B : getDA st1.brem kB 0 = sumRemaining B.lines := by
      unfold getDA
      rw [a5 kB (Ne.symm hk)]
      exact hb0B
    have hfree1 : getDA st1.mfree (0, m.id) 0 =
        m.daily_capacity - min m.daily_capacity (sumRemaining A.lines) := a6
    have hinner1A : innerBatchTotal kA (getDA st1.sched (0, m.id) []) =
        min m.daily_capacity (sumRemaining A.lines) := by
      rw [a2, hsched0]
      simp only [innerBatchTotal]
      rw [hb0Al]
      omega
    have hinner1B : innerBatchTotal kB (getDA st1.sched (0, m.id) []) = 0 := by
      rw [a3 kB (Ne.symm hk), hsched0]
      simp only [innerBatchTotal]
    by_cases hB0 : sumRemaining B.lines ≤ 0
    · have hst2 : distStepBatch [(m.id, m)] routing 0 st1 kB = st1 :=
        distStepBatch_skip _ _ _ _ _ (by rw [hbrem1B]; omega)
      rw [hst2]
      refine ⟨hinner1A, ?_⟩
      rw [hinner1B]
      omega
    · by_cases hF1 : getDA st1.mfree (0, m.id) 0 ≤ 0
      · have hst2 : distStepBatch [(m.id, m)] routing 0 st1 kB = st1 :=
          distStepBatch_free0 m routing 0 st1 kB B hact hlkB1 hcpB hF1
        rw [hst2]
        refine ⟨hinner1A, ?_⟩
        rw [hinner1B, hfree1] at *
        omega
      · obtain ⟨b1, b2, b3, b4, b5, b6, b7⟩ :=
          distStepBatch_alloc m routing 0 st1 kB B hact hlkB1 hcpB hB hbrem1B.symm
            (by rw [hbrem1B]; omega) (by omega)
        rw [hbrem1B, hfree1] at b2
        constructor
        · rw [b3 kA hk]
          exact hinner1A
        · rw [b2, hinner1B]
          omega

/-- C6 witness: batch a (priority 5, total 4) against batch b (priority 3,
total 8) on one machine of capacity 10: day 0 gives a its full 4 and b the
remaining 6. -/
theorem c6_priority_ordering_witness :
    (⟨"t", "c", "r2", 3, [⟨1, "y", 8, 8⟩]⟩ : Batch).priority <
      (⟨"t", "c", "r", 5, [⟨0, "x", 4, 4⟩]⟩ : Batch).priority ∧
    ("a" : String) ≠ "b" ∧
    batchDayTotal (distribute_batches
        [("a", ⟨"t", "c", "r", 5, [⟨0, "x", 4, 4⟩]⟩),
         ("b", ⟨"t", "c", "r2", 3, [⟨1, "y", 8, 8⟩]⟩)]
        [("m1", ⟨"m1", "M1", [], [], 10, 1, true⟩)] []).2.1 0 "m1" "a" = 4 ∧
    batchDayTotal (distribute_batches
        [("a", ⟨"t", "c", "r", 5, [⟨0, "x", 4, 4⟩]⟩),
         ("b", ⟨"t", "c", "r2", 3, [⟨1, "y", 8, 8⟩]⟩)]
        [("m1", ⟨"m1", "M1", [], [], 10, 1, true⟩)] []).2.1 0 "m1" "b" = 6 :=
  ⟨by decide, by decide,
    (c6_priority_ordering ⟨"m1", "M1", [], [], 10, 1, true⟩ [] "a" "b"
      ⟨"t", "c", "r", 5, [⟨0, "x", 4, 4⟩]⟩ ⟨"t", "c", "r2", 3, [⟨1, "y", 8, 8⟩]⟩
      rfl (by decide) (by decide) (by decide) (by decide) (by decide) (by decide)
      (by decide)).1,
    (c6_priority_ordering ⟨"m1", "M1", [], [], 10, 1, true⟩ [] "a" "b"
      ⟨"t", "c", "r", 5, [⟨0, "x", 4, 4⟩]⟩ ⟨"t", "c", "r2", 3, [⟨1, "y", 8, 8⟩]⟩
      rfl (by decide) (by decide) (by decide) (by decide) (by decide) (by decide)
      (by decide)).2⟩
